import Mathlib

/-!
Verification of the point-of-sale backend (`server.js`, plus a near-duplicate
entry point differing only in storage-path selection and a dead
`updatedProducts` accumulator).

The development shallowly embeds the two parts of the program the claims are
about:

* the sale-recording transaction behind `app.post('/api/sales')`
  (validation, per-item stock decrement, ledger append, sale append, single
  `writeDatabase` call), over a typed `State` mirroring the persisted
  document's four collections; JavaScript dynamic values that reach the
  arithmetic (`Number(x)` coercion, truthiness, `NaN`) are modelled
  explicitly by `JSVal`/`JSNum`, with the finite numbers restricted to
  the integers (every quantity/amount the claims exercise is integral;
  fractional doubles are outside the modelled domain);
* the storage helpers `readDatabase`/`writeDatabase`, i.e.
  `JSON.parse ∘ fs.readFileSync` with an empty-state fallback and
  `fs.writeFileSync ∘ JSON.stringify (·, null, 2)`, over a `Json` tree whose
  numbers are integers (the persisted documents exercised here are
  integer-valued; JS float printing is out of the modelled domain).
-/

namespace Backend

/-! ## JavaScript value model

`JSNum` is a JavaScript number: `none` is `NaN`, `some q` a finite value
(fractional values and ±Infinity are outside the modelled domain).
`JSVal` is a JSON-decoded request field. -/

/-- A JavaScript number: `none` models `NaN`, `some q` a finite (integral)
value. -/
abbrev JSNum := Option Int

/-- JavaScript `a < b`: any comparison with `NaN` is `false`. -/
def jsLt : JSNum → JSNum → Bool
  | some a, some b => decide (a < b)
  | _, _ => false

/-- JavaScript `a <= b`: any comparison with `NaN` is `false`. -/
def jsLe : JSNum → JSNum → Bool
  | some a, some b => decide (a ≤ b)
  | _, _ => false

/-- JavaScript subtraction; `NaN` propagates. -/
def jsSub : JSNum → JSNum → JSNum
  | some a, some b => some (a - b)
  | _, _ => none

/-- JavaScript addition; `NaN` propagates. -/
def jsAdd : JSNum → JSNum → JSNum
  | some a, some b => some (a + b)
  | _, _ => none

/-- A dynamically typed JavaScript value as it arrives in a JSON request
body field (objects/arrays in scalar positions are outside the modelled
domain). -/
inductive JSVal where
  | undef
  | null
  | boolean (b : Bool)
  | number (n : JSNum)
  | string (s : String)
deriving DecidableEq

/-- JavaScript truthiness: `undefined`, `null`, `false`, `0`, `NaN` and `""`
are falsy, everything else truthy. -/
def jsTruthy : JSVal → Bool
  | .undef => false
  | .null => false
  | .boolean b => b
  | .number none => false
  | .number (some q) => decide (q ≠ 0)
  | .string s => !s.isEmpty

/-- JavaScript `a || b` as used for defaulting: keep `a` if truthy, else `b`. -/
def jsOr (a b : JSVal) : JSVal := if jsTruthy a then a else b

/-- Whitespace characters recognised by the model (space, newline, tab, CR). -/
def isWs (c : Char) : Bool := c = ' ' || c = '\n' || c = '\t' || c = '\r'

/-- Numeric value of a list of decimal digit characters, most significant
first. -/
def digitsToNat (l : List Char) : Nat :=
  l.foldl (fun a c => a * 10 + (c.toNat - 48)) 0

/-- `Number(s)` for a string `s`: trimmed empty string is `0`; an optional
sign followed by decimal digits is the denoted integer; anything else is
`NaN`.  (Fractional, hex, exponent and `Infinity` literals are outside the
modelled domain.) -/
def strToNum (s : String) : JSNum :=
  let l := ((s.data.dropWhile isWs).reverse.dropWhile isWs).reverse
  if l.isEmpty then some 0
  else
    let sgn : Int × List Char :=
      match l with
      | '-' :: r => (-1, r)
      | '+' :: r => (1, r)
      | _ => (1, l)
    let intPart := sgn.2.takeWhile Char.isDigit
    let r1 := sgn.2.dropWhile Char.isDigit
    match r1 with
    | [] => if intPart.isEmpty then none else some (sgn.1 * (digitsToNat intPart : Int))
    | _ => none

/-- JavaScript `Number(x)` coercion on the modelled values. -/
def toNumber : JSVal → JSNum
  | .undef => none
  | .null => some 0
  | .boolean b => some (if b then 1 else 0)
  | .number n => n
  | .string s => strToNum s

/-! ## Data model (persisted collections, §3 of the source's layout) -/

/-- A product record as stored in `db.products`. -/
structure Product where
  id : String
  name : String
  category : String
  price : JSNum
  quantity : JSNum
  lowStockThreshold : JSNum
  createdAt : String
  updatedAt : String
deriving DecidableEq

/-- A sale line item after the route's coercion
`{productId: i.productId, name: i.name, price: Number(i.price),
quantity: Number(i.quantity)}`. -/
structure SaleItem where
  productId : String
  name : String
  price : JSNum
  quantity : JSNum
deriving DecidableEq

/-- A sale record as pushed onto `db.sales`. -/
structure Sale where
  id : String
  customerName : JSVal
  items : List SaleItem
  totalAmount : JSNum
  paymentMethod : JSVal
  date : String
deriving DecidableEq

/-- A stock-ledger entry as pushed onto `db.stockTransactions`. -/
structure StockTransaction where
  id : String
  productId : String
  type : String
  quantity : JSNum
  reason : String
  date : String
deriving DecidableEq

/-- The whole persisted document: the four collections.  `customers` is
never touched by the modelled routes, so its element type is opaque
(`String` placeholder for the raw records). -/
structure State where
  products : List Product
  sales : List Sale
  customers : List String
  stockTransactions : List StockTransaction
deriving DecidableEq

/-! ## The sale-recording transaction (`app.post('/api/sales')`) -/

/-- A raw request line item, fields still untyped as in the JSON body
(`productId` and `name` are strings in the modelled domain). -/
structure RawItem where
  productId : String
  name : String
  price : JSVal
  quantity : JSVal
deriving DecidableEq

/-- The request body destructured by the route:
`const { items, customerName, totalAmount, paymentMethod } = req.body`.
`items = none` models a missing / non-array `items` field
(`!Array.isArray(items)`). -/
structure SaleRequest where
  items : Option (List RawItem)
  customerName : JSVal
  totalAmount : JSVal
  paymentMethod : JSVal
deriving DecidableEq

/-- Validation errors of the route, each carrying the data interpolated
into the source's message string:
`itemsRequired` ↦ "Items array required",
`invalidTotal` ↦ "Valid totalAmount required",
`notFound pid` ↦ "Product with ID {pid} not found",
`insufficientStock name avail req` ↦
"Insufficient stock for {name}. Available: {avail}, Requested: {req}".
All four are sent with HTTP status 400. -/
inductive SaleError where
  | itemsRequired
  | invalidTotal
  | notFound (productId : String)
  | insufficientStock (name : String) (available requested : JSNum)
deriving DecidableEq

/-- The route's HTTP response: `success sale` is the 201
`{message: 'Sale recorded', sale}` body, `failure e` the 400 `{error}` body. -/
inductive ApiResponse where
  | success (sale : Sale)
  | failure (e : SaleError)
deriving DecidableEq

/-- HTTP status code of a response. -/
def statusCode : ApiResponse → Nat
  | .success _ => 201
  | .failure _ => 400

/-- `db.products.find(p => p.id === item.productId)`. -/
def findProduct (ps : List Product) (pid : String) : Option Product :=
  ps.find? (fun p => p.id == pid)

/-- In-place mutation of the object returned by `Array.prototype.find`:
functionally, replace the first product whose `id` matches. -/
def updateFirst (ps : List Product) (pid : String) (f : Product → Product) :
    List Product :=
  match ps with
  | [] => []
  | p :: rest => if p.id == pid then f p :: rest else p :: updateFirst rest pid f

/-- `items.map(i => ({productId, name, price: Number(i.price),
quantity: Number(i.quantity)}))`. -/
def coerceItems (items : List RawItem) : List SaleItem :=
  items.map fun i =>
    { productId := i.productId, name := i.name,
      price := toNumber i.price, quantity := toNumber i.quantity }

/-- The `for (let item of sale.items)` loop: look the product up in the
(evolving) document, reject on a missing product or on
`product.quantity < item.quantity`, otherwise decrement the quantity,
refresh `updatedAt`, and push an `out` ledger entry.  `g k` is the value of
the `k`-th `generateId()` call of the request (`g 0` was the sale id);
`now` the timestamp; `sid` the sale id interpolated into `reason`. -/
def processItems (g : Nat → String) (now sid : String) :
    Nat → State → List SaleItem → Except SaleError State
  | _, db, [] => Except.ok db
  | k, db, item :: rest =>
    match findProduct db.products item.productId with
    | none => Except.error (SaleError.notFound item.productId)
    | some product =>
      if jsLt product.quantity item.quantity then
        Except.error
          (SaleError.insufficientStock product.name product.quantity item.quantity)
      else
        processItems g now sid (k + 1)
          { db with
            products := updateFirst db.products item.productId
              (fun p => { p with quantity := jsSub p.quantity item.quantity,
                                 updatedAt := now }),
            stockTransactions := db.stockTransactions ++
              [{ id := g k, productId := product.id, type := "out",
                 quantity := item.quantity, reason := "Sale #" ++ sid,
                 date := now }] }
          rest

/-- The ledger entries a successful run of the loop appends, one per item in
order (`g k` the id of the entry for the `k`-th item processed). -/
def saleTxns (g : Nat → String) (now sid : String) :
    Nat → List SaleItem → List StockTransaction
  | _, [] => []
  | k, i :: rest =>
    { id := g k, productId := i.productId, type := "out",
      quantity := i.quantity, reason := "Sale #" ++ sid, date := now } ::
      saleTxns g now sid (k + 1) rest

/-- The `sale` object the route constructs before the loop:
`generateId()` id, `customerName || 'Walk-in Customer'`, coerced items,
`Number(totalAmount)`, `paymentMethod || 'cash'`, current date. -/
def builtSale (g : Nat → String) (now : String) (req : SaleRequest)
    (items : List RawItem) : Sale :=
  { id := g 0,
    customerName := jsOr req.customerName (JSVal.string "Walk-in Customer"),
    items := coerceItems items,
    totalAmount := toNumber req.totalAmount,
    paymentMethod := jsOr req.paymentMethod (JSVal.string "cash"),
    date := now }

/-- The whole `app.post('/api/sales')` handler.  Returns the HTTP response
together with the document passed to `writeDatabase` (`none` when the
handler returned before reaching the write).  `g` enumerates the
`generateId()` results of this request, `now` the request timestamp.
Mirrors the source exactly: the two pre-checks, the sale construction
(`builtSale`), the item loop, `db.sales.push(sale)`, then
`writeDatabase(db)` whose boolean result the source ignores before
answering 201. -/
def recordSale (g : Nat → String) (now : String) (db : State)
    (req : SaleRequest) : ApiResponse × Option State :=
  match req.items with
  | none => (ApiResponse.failure SaleError.itemsRequired, none)
  | some items =>
    if items.isEmpty then (ApiResponse.failure SaleError.itemsRequired, none)
    else if !jsTruthy req.totalAmount
        || jsLe (toNumber req.totalAmount) (some 0) then
      (ApiResponse.failure SaleError.invalidTotal, none)
    else
      let sale := builtSale g now req items
      match processItems g now sale.id 1 db sale.items with
      | Except.error e => (ApiResponse.failure e, none)
      | Except.ok db2 =>
        (ApiResponse.success sale, some { db2 with sales := db2.sales ++ [sale] })

/-- The document on disk after the call: unchanged when the handler never
called `writeDatabase`, or when `fs.writeFileSync` failed (`saveOk = false`,
in which case `writeDatabase` returns `false` after logging); replaced by
the merged document otherwise. -/
def persistedAfter (saveOk : Bool) (db : State)
    (r : ApiResponse × Option State) : State :=
  match r.2 with
  | none => db
  | some s => if saveOk then s else db

/-- The loop body's check for one item against a document `db1`: the error
it raises, if any (`none` = the item passes and is committed). -/
def itemError (db1 : State) (itm : SaleItem) : Option SaleError :=
  match findProduct db1.products itm.productId with
  | none => some (SaleError.notFound itm.productId)
  | some p =>
    if jsLt p.quantity itm.quantity then
      some (SaleError.insufficientStock p.name p.quantity itm.quantity)
    else none

/-! ## Derived observations used by the claims -/

/-- "The quantity is not negative" in JavaScript terms: `q < 0` is false
(so `NaN`, which compares false both ways, counts as not negative). -/
def notNegative (q : JSNum) : Bool := !(jsLt q (some 0))

/-- Sum of the products' quantities (reading `NaN` as 0; the claims using
this assume every quantity is an actual number). -/
def sumQty (ps : List Product) : Int := (ps.map (fun p => p.quantity.getD 0)).sum

/-- Sum of the line items' requested quantities (same reading). -/
def sumItems (items : List SaleItem) : Int :=
  (items.map (fun i => i.quantity.getD 0)).sum

/-- Referential integrity of a document: every ledger entry's and every
sale line's `productId` has a matching product. -/
def refIntegrity (s : State) : Prop :=
  (∀ t ∈ s.stockTransactions, ∃ p ∈ s.products, p.id = t.productId) ∧
  (∀ sl ∈ s.sales, ∀ it ∈ sl.items, ∃ p ∈ s.products, p.id = it.productId)

/-! ## Concrete demonstration values (Scenario 1 of the spec and variants) -/

/-- A deterministic stand-in for the `generateId()` stream of one request. -/
def demoGen : Nat → String
  | 0 => "sale-1"
  | 1 => "txn-1"
  | 2 => "txn-2"
  | _ => "id-x"

/-- Scenario 1's product: `{id:"p1", quantity:10}`. -/
def demoProduct : Product :=
  { id := "p1", name := "Widget", category := "general", price := some 5,
    quantity := some 10, lowStockThreshold := some 10,
    createdAt := "2024-01-01", updatedAt := "2024-01-01" }

/-- Scenario 1's store. -/
def demoDb : State :=
  { products := [demoProduct], sales := [], customers := [],
    stockTransactions := [] }

/-- Scenario 1's line item: 3 Widgets at price 5. -/
def demoItem : RawItem :=
  { productId := "p1", name := "Widget", price := JSVal.number (some 5),
    quantity := JSVal.number (some 3) }

/-- Scenario 1's request: one item, `totalAmount` 15, no customer/payment. -/
def demoReq : SaleRequest :=
  { items := some [demoItem], customerName := JSVal.undef,
    totalAmount := JSVal.number (some 15), paymentMethod := JSVal.undef }

/-- The same request with an empty `items` array (Scenario 3). -/
def demoReqEmptyItems : SaleRequest := { demoReq with items := some [] }

/-- The same request with a truthy non-numeric `totalAmount`. -/
def demoReqNanTotal : SaleRequest :=
  { demoReq with totalAmount := JSVal.string "abc" }

/-- Scenario 1's item after coercion. -/
def demoSaleItem : SaleItem :=
  { productId := "p1", name := "Widget", price := some 5, quantity := some 3 }

/-- Scenario 1's recorded sale. -/
def demoSale : Sale :=
  { id := "sale-1", customerName := JSVal.string "Walk-in Customer",
    items := [demoSaleItem], totalAmount := some 15,
    paymentMethod := JSVal.string "cash", date := "T" }

/-- Scenario 1's product after the sale: quantity 7, timestamp refreshed. -/
def demoProductAfter : Product :=
  { demoProduct with quantity := some 7, updatedAt := "T" }

/-- Scenario 1's ledger entry. -/
def demoTxn : StockTransaction :=
  { id := "txn-1", productId := "p1", type := "out", quantity := some 3,
    reason := "Sale #sale-1", date := "T" }

/-- The document after the loop of Scenario 1 (sale not yet appended). -/
def demoDb2 : State :=
  { products := [demoProductAfter], sales := [], customers := [],
    stockTransactions := [demoTxn] }

/-- The document Scenario 1 hands to `writeDatabase`. -/
def demoFinal : State := { demoDb2 with sales := [demoSale] }

/-- An item naming a product id that is not in the store (Scenario 4). -/
def ghostItem : RawItem := { demoItem with productId := "ghost" }

/-- `ghostItem` after coercion. -/
def ghostSaleItem : SaleItem := { demoSaleItem with productId := "ghost" }

/-- Valid first item, unknown second item: exercises ordering (C4). -/
def demoReqGhost : SaleRequest :=
  { demoReq with items := some [demoItem, ghostItem] }

/-- Single item whose `quantity` coerces to the negative number −5 (C10). -/
def negItem : RawItem := { demoItem with quantity := JSVal.number (some (-5)) }

/-- Request carrying `negItem`. -/
def demoReqNeg : SaleRequest := { demoReq with items := some [negItem] }

/-! ## The storage helpers (`readDatabase` / `writeDatabase`)

`readDatabase` is `JSON.parse(fs.readFileSync(dbPath, 'utf8'))` with a
`catch` returning the empty four-collection object; `writeDatabase`
replaces the file content with `JSON.stringify(data, null, 2)`.  The
document tree is modelled by `Json` with integer numbers (JS double
printing is outside the modelled domain); the serializer reproduces
`JSON.stringify`'s two-space indentation and string escaping, and the
parser models `JSON.parse` on such documents (whitespace-tolerant,
integer numerals, standard escape sequences). -/

/-- A JSON document tree (numbers restricted to integers). -/
inductive Json where
  | null
  | boolean (b : Bool)
  | num (n : Int)
  | str (s : String)
  | arr (elems : List Json)
  | obj (fields : List (String × Json))

/-- The decimal digit character for `k < 10`. -/
def digitOf : Nat → Char
  | 0 => '0' | 1 => '1' | 2 => '2' | 3 => '3' | 4 => '4'
  | 5 => '5' | 6 => '6' | 7 => '7' | 8 => '8' | _ => '9'

/-- Decimal digits of a natural number, most significant first. -/
def natChars (n : Nat) : List Char :=
  if n < 10 then [digitOf n]
  else natChars (n / 10) ++ [digitOf (n % 10)]
termination_by n
decreasing_by exact Nat.div_lt_self (by omega) (by omega)

/-- Decimal representation of an integer, as printed by `JSON.stringify`. -/
def intChars (n : Int) : List Char :=
  if n < 0 then '-' :: natChars n.natAbs else natChars n.toNat

/-- The lowercase hex digit for `k < 16`. -/
def hexDigitOf : Nat → Char
  | 0 => '0' | 1 => '1' | 2 => '2' | 3 => '3' | 4 => '4'
  | 5 => '5' | 6 => '6' | 7 => '7' | 8 => '8' | 9 => '9'
  | 10 => 'a' | 11 => 'b' | 12 => 'c' | 13 => 'd' | 14 => 'e' | _ => 'f'

/-- `JSON.stringify`'s escaping of one string character: `"`, `\`, the
named control escapes, `\u00XX` for the remaining control characters, and
everything else verbatim. -/
def escChar (c : Char) : List Char :=
  if c = '"' then ['\\', '"']
  else if c = '\\' then ['\\', '\\']
  else if c = '\n' then ['\\', 'n']
  else if c = '\t' then ['\\', 't']
  else if c = '\r' then ['\\', 'r']
  else if c.toNat = 8 then ['\\', 'b']
  else if c.toNat = 12 then ['\\', 'f']
  else if c.toNat < 32 then
    ['\\', 'u', '0', '0', hexDigitOf (c.toNat / 16), hexDigitOf (c.toNat % 16)]
  else [c]

/-- Escaped body of a string literal. -/
def escChars (l : List Char) : List Char := (l.map escChar).flatten

/-- A quoted JSON string literal. -/
def quoteStr (s : String) : List Char := '"' :: (escChars s.data ++ ['"'])

/-- `indent` spaces. -/
def indentChars (d : Nat) : List Char := List.replicate d ' '

mutual

/-- `JSON.stringify(v, null, 2)` at indentation depth `d`, as characters. -/
def serJ : Nat → Json → List Char
  | _, Json.null => ['n', 'u', 'l', 'l']
  | _, Json.boolean true => ['t', 'r', 'u', 'e']
  | _, Json.boolean false => ['f', 'a', 'l', 's', 'e']
  | _, Json.num n => intChars n
  | _, Json.str s => quoteStr s
  | _, Json.arr [] => ['[', ']']
  | d, Json.arr (x :: xs) =>
    '[' :: '\n' :: (indentChars (d + 2) ++ serJ (d + 2) x ++ serArrTail d xs)
  | _, Json.obj [] => ['{', '}']
  | d, Json.obj (m :: ms) =>
    '{' :: '\n' :: (indentChars (d + 2) ++ serMember d m ++ serObjTail d ms)

/-- One serialized object member: quoted key, colon, space, value. -/
def serMember : Nat → String × Json → List Char
  | d, (k, v) => quoteStr k ++ ':' :: ' ' :: serJ (d + 2) v

/-- The remaining array elements after the first, each preceded by
`",\n" ++ indent`, and the closing `"\n" ++ indent ++ "]"`. -/
def serArrTail : Nat → List Json → List Char
  | d, [] => '\n' :: (indentChars d ++ [']'])
  | d, y :: ys =>
    ',' :: '\n' :: (indentChars (d + 2) ++ serJ (d + 2) y ++ serArrTail d ys)

/-- The remaining object members after the first, and the closing brace. -/
def serObjTail : Nat → List (String × Json) → List Char
  | d, [] => '\n' :: (indentChars d ++ ['}'])
  | d, m :: ms =>
    ',' :: '\n' :: (indentChars (d + 2) ++ serMember d m ++ serObjTail d ms)

end

/-- `String.mk` of the document's characters:
`JSON.stringify(j, null, 2)`. -/
def serializeJson (j : Json) : String := String.mk (serJ 0 j)

/-- Drop leading JSON whitespace. -/
def skipWs : List Char → List Char
  | [] => []
  | c :: cs => if isWs c then skipWs cs else c :: cs

/-- Match an expected literal character sequence. -/
def expectChars : List Char → List Char → Option (List Char)
  | [], l => some l
  | e :: es, c :: cs => if c = e then expectChars es cs else none
  | _ :: _, [] => none

/-- Numeric value of a decimal digit character. -/
def digitVal (c : Char) : Nat := c.toNat - 48

/-- Consume a maximal run of decimal digits, accumulating their value. -/
def digitsLoop : Nat → List Char → Nat × List Char
  | acc, [] => (acc, [])
  | acc, c :: cs =>
    if c.isDigit then digitsLoop (acc * 10 + digitVal c) cs else (acc, c :: cs)

/-- Parse a nonempty run of decimal digits. -/
def parseDigits : List Char → Option (Nat × List Char)
  | [] => none
  | c :: cs => if c.isDigit then some (digitsLoop (digitVal c) cs) else none

/-- Numeric value of a hex digit character, if any. -/
def hexVal (c : Char) : Option Nat :=
  if 48 ≤ c.toNat ∧ c.toNat ≤ 57 then some (c.toNat - 48)
  else if 97 ≤ c.toNat ∧ c.toNat ≤ 102 then some (c.toNat - 87)
  else if 65 ≤ c.toNat ∧ c.toNat ≤ 70 then some (c.toNat - 55)
  else none

mutual

/-- Parse the body of a string literal after the opening quote: plain
characters up to the closing quote, with backslash escapes. -/
def strBody : List Char → Option (List Char × List Char)
  | [] => none
  | c :: rest =>
    if c = '"' then some ([], rest)
    else if c = '\\' then strEsc rest
    else (strBody rest).map (fun p => (c :: p.1, p.2))

/-- Parse what follows a backslash inside a string literal. -/
def strEsc : List Char → Option (List Char × List Char)
  | [] => none
  | e :: rest2 =>
    if e = '"' then (strBody rest2).map (fun p => ('"' :: p.1, p.2))
    else if e = '\\' then (strBody rest2).map (fun p => ('\\' :: p.1, p.2))
    else if e = '/' then (strBody rest2).map (fun p => ('/' :: p.1, p.2))
    else if e = 'n' then (strBody rest2).map (fun p => ('\n' :: p.1, p.2))
    else if e = 't' then (strBody rest2).map (fun p => ('\t' :: p.1, p.2))
    else if e = 'r' then (strBody rest2).map (fun p => ('\r' :: p.1, p.2))
    else if e = 'b' then (strBody rest2).map (fun p => (Char.ofNat 8 :: p.1, p.2))
    else if e = 'f' then (strBody rest2).map (fun p => (Char.ofNat 12 :: p.1, p.2))
    else if e = 'u' then strHex rest2
    else none

/-- Parse the four hex digits of a `\uXXXX` escape. -/
def strHex : List Char → Option (List Char × List Char)
  | a :: b :: c2 :: d2 :: rest3 =>
    (hexVal a).bind fun ha =>
    (hexVal b).bind fun hb =>
    (hexVal c2).bind fun hc =>
    (hexVal d2).bind fun hd =>
    (strBody rest3).map
      (fun p => (Char.ofNat (((ha * 16 + hb) * 16 + hc) * 16 + hd) :: p.1, p.2))
  | _ => none

end

/-- Parser modes: a value, the tail of an array, the tail of an object, or
one object member. -/
inductive PMode where
  | value
  | elems
  | members
  | member

/-- Parser results, one constructor per mode. -/
inductive PRes where
  | v (j : Json) (rest : List Char)
  | es (js : List Json) (rest : List Char)
  | ms (fs : List (String × Json)) (rest : List Char)
  | m (kv : String × Json) (rest : List Char)

/-- Parse one JSON value whose first (non-ws) character is `c`; `next` is
the recursive entry point at the smaller fuel. -/
def valueAt (next : PMode → List Char → Option PRes) (c : Char)
    (cs : List Char) : Option PRes :=
  if c.isDigit then
    match parseDigits (c :: cs) with
    | some (n, rest2) => some (PRes.v (Json.num (n : Int)) rest2)
    | none => none
  else if c = '-' then
    match parseDigits cs with
    | some (n, rest2) => some (PRes.v (Json.num (-(n : Int))) rest2)
    | none => none
  else if c = 'n' then
    match expectChars ['u', 'l', 'l'] cs with
    | some rest2 => some (PRes.v Json.null rest2)
    | none => none
  else if c = 't' then
    match expectChars ['r', 'u', 'e'] cs with
    | some rest2 => some (PRes.v (Json.boolean true) rest2)
    | none => none
  else if c = 'f' then
    match expectChars ['a', 'l', 's', 'e'] cs with
    | some rest2 => some (PRes.v (Json.boolean false) rest2)
    | none => none
  else if c = '"' then
    match strBody cs with
    | some (cs2, rest2) => some (PRes.v (Json.str (String.mk cs2)) rest2)
    | none => none
  else if c = '[' then
    match skipWs cs with
    | [] => none
    | c2 :: cs2 =>
      if c2 = ']' then some (PRes.v (Json.arr []) cs2)
      else
        match next PMode.value (c2 :: cs2) with
        | some (PRes.v j rest2) =>
          match next PMode.elems rest2 with
          | some (PRes.es js rest3) => some (PRes.v (Json.arr (j :: js)) rest3)
          | _ => none
        | _ => none
  else if c = '{' then
    match skipWs cs with
    | [] => none
    | c2 :: cs2 =>
      if c2 = '}' then some (PRes.v (Json.obj []) cs2)
      else
        match next PMode.member (c2 :: cs2) with
        | some (PRes.m kv rest2) =>
          match next PMode.members rest2 with
          | some (PRes.ms fs rest3) => some (PRes.v (Json.obj (kv :: fs)) rest3)
          | _ => none
        | _ => none
  else none

/-- Parse the tail of an array: `,` then a value and the rest, or `]`. -/
def elemsAt (next : PMode → List Char → Option PRes) (c : Char)
    (cs : List Char) : Option PRes :=
  if c = ',' then
    match next PMode.value cs with
    | some (PRes.v j rest2) =>
      match next PMode.elems rest2 with
      | some (PRes.es js rest3) => some (PRes.es (j :: js) rest3)
      | _ => none
    | _ => none
  else if c = ']' then some (PRes.es [] cs)
  else none

/-- Parse the tail of an object: `,` then a member and the rest, or `}`. -/
def membersAt (next : PMode → List Char → Option PRes) (c : Char)
    (cs : List Char) : Option PRes :=
  if c = ',' then
    match next PMode.member cs with
    | some (PRes.m kv rest2) =>
      match next PMode.members rest2 with
      | some (PRes.ms fs rest3) => some (PRes.ms (kv :: fs) rest3)
      | _ => none
    | _ => none
  else if c = '}' then some (PRes.ms [] cs)
  else none

/-- Parse one object member: quoted key, colon, value. -/
def memberAt (next : PMode → List Char → Option PRes) (c : Char)
    (cs : List Char) : Option PRes :=
  if c = '"' then
    match strBody cs with
    | some (cs2, rest2) =>
      match skipWs rest2 with
      | [] => none
      | c3 :: cs3 =>
        if c3 = ':' then
          match next PMode.value cs3 with
          | some (PRes.v v rest4) => some (PRes.m (String.mk cs2, v) rest4)
          | _ => none
        else none
    | none => none
  else none

/-- The fuel-indexed JSON parser (`JSON.parse` on the modelled document
domain): skip whitespace, then dispatch on the mode and the first
character.  Fuel only bounds the nesting of recursive parses; one unit is
spent per recursive entry. -/
def parseStep : Nat → PMode → List Char → Option PRes
  | 0, _, _ => none
  | fuel + 1, mode, l =>
    match skipWs l with
    | [] => none
    | c :: cs =>
      match mode with
      | PMode.value => valueAt (fun m l2 => parseStep fuel m l2) c cs
      | PMode.elems => elemsAt (fun m l2 => parseStep fuel m l2) c cs
      | PMode.members => membersAt (fun m l2 => parseStep fuel m l2) c cs
      | PMode.member => memberAt (fun m l2 => parseStep fuel m l2) c cs

/-- `JSON.parse(s)` on the modelled domain: parse one value, require the
remainder to be whitespace; `none` models a thrown `SyntaxError`. -/
def parseJson (s : String) : Option Json :=
  match parseStep (s.data.length + 1) PMode.value s.data with
  | some (PRes.v j rest) => if (skipWs rest).isEmpty then some j else none
  | _ => none

/-- The empty document created on startup and returned by the `catch`
branch: `{ products: [], sales: [], customers: [], stockTransactions: [] }`. -/
def initialDb : Json :=
  Json.obj [("products", Json.arr []), ("sales", Json.arr []),
    ("customers", Json.arr []), ("stockTransactions", Json.arr [])]

/-- `readDatabase()`: parse the file content; a missing file (`none`) or a
read/parse failure yields the empty document instead of an error. -/
def readDatabase : Option String → Json
  | none => initialDb
  | some s => (parseJson s).getD initialDb

/-- The byte content `writeDatabase(data)` puts on disk when the write
succeeds: `JSON.stringify(data, null, 2)`.  (Whether the write succeeds is
the `saveOk` flag of `persistedAfter`; on failure the helper logs and
returns `false`.) -/
def writeDatabase (j : Json) : String := serializeJson j

/-- "Does not start with a decimal digit": guards maximal-munch number
parsing against the continuation. -/
def noDigit : List Char → Prop
  | [] => True
  | c :: _ => c.isDigit = false

/-! ## Structural lemmas about the item loop -/

theorem updateFirst_split (pid : String) (f : Product → Product) :
    ∀ (ps : List Product) (p : Product), findProduct ps pid = some p →
      ∃ l r, ps = l ++ p :: r ∧ updateFirst ps pid f = l ++ f p :: r := by
  intro ps
  induction ps with
  | nil => intro p h; simp [findProduct] at h
  | cons a as ih =>
    intro p h
    by_cases ha : (a.id == pid) = true
    · have hpa : a = p := by
        simpa [findProduct, List.find?_cons, ha] using h
      subst hpa
      exact ⟨[], as, by simp, by simp [updateFirst, ha]⟩
    · have ha' : (a.id == pid) = false := by simpa using ha
      have h' : findProduct as pid = some p := by
        simpa [findProduct, List.find?_cons, ha'] using h
      obtain ⟨l, r, hsplit, hupd⟩ := ih p h'
      exact ⟨a :: l, r, by simp [hsplit], by simp [updateFirst, ha', hupd]⟩

theorem updateFirst_map_id (pid : String) (f : Product → Product)
    (hf : ∀ p, (f p).id = p.id) :
    ∀ ps : List Product,
      (updateFirst ps pid f).map Product.id = ps.map Product.id := by
  intro ps
  induction ps with
  | nil => rfl
  | cons a as ih =>
    by_cases ha : (a.id == pid) = true
    · simp [updateFirst, ha, hf]
    · simp [updateFirst, ha, ih]

theorem mem_updateFirst (pid : String) (f : Product → Product)
    (ps : List Product) (p q : Product) (h : findProduct ps pid = some p)
    (hq : q ∈ updateFirst ps pid f) : q ∈ ps ∨ q = f p := by
  obtain ⟨l, r, hsplit, hupd⟩ := updateFirst_split pid f ps p h
  rw [hupd] at hq
  rcases List.mem_append.mp hq with hl | hr
  · exact Or.inl (hsplit ▸ List.mem_append.mpr (Or.inl hl))
  · rcases List.mem_cons.mp hr with he | hr'
    · exact Or.inr he
    · exact Or.inl (hsplit ▸ List.mem_append.mpr (Or.inr (List.mem_cons_of_mem _ hr')))

theorem sumQty_updateFirst (pid : String) (f : Product → Product)
    (ps : List Product) (p : Product) (h : findProduct ps pid = some p) :
    sumQty (updateFirst ps pid f) =
      sumQty ps - p.quantity.getD 0 + (f p).quantity.getD 0 := by
  obtain ⟨l, r, hsplit, hupd⟩ := updateFirst_split pid f ps p h
  rw [hupd, hsplit]
  simp only [sumQty, List.map_append, List.map_cons, List.sum_append, List.sum_cons]
  ring

theorem find_id_eq (ps : List Product) (pid : String) (p : Product)
    (h : findProduct ps pid = some p) : p.id = pid := by
  have := List.find?_some h
  exact eq_of_beq this

theorem find_mem (ps : List Product) (pid : String) (p : Product)
    (h : findProduct ps pid = some p) : p ∈ ps :=
  List.mem_of_find?_eq_some h

theorem jsSub_notNegative (a b : JSNum) (hguard : jsLt a b = false) :
    notNegative (jsSub a b) = true := by
  cases a with
  | none => rfl
  | some x =>
    cases b with
    | none => rfl
    | some y =>
      have hyx : y ≤ x := by
        have := of_decide_eq_false hguard
        omega
      simp only [notNegative, jsSub, jsLt]
      simpa using by omega

theorem processItems_ok (g : Nat → String) (now sid : String) :
    ∀ (items : List SaleItem) (k : Nat) (db db2 : State),
      processItems g now sid k db items = Except.ok db2 →
      db2.sales = db.sales ∧ db2.customers = db.customers ∧
      db2.stockTransactions = db.stockTransactions ++ saleTxns g now sid k items ∧
      db2.products.map Product.id = db.products.map Product.id ∧
      ∀ i ∈ items, i.productId ∈ db.products.map Product.id := by
  intro items
  induction items with
  | nil =>
    intro k db db2 h
    simp only [processItems] at h
    cases h
    simp [saleTxns]
  | cons item rest ih =>
    intro k db db2 h
    rw [processItems] at h
    cases hf : findProduct db.products item.productId with
    | none => simp [hf] at h
    | some product =>
      simp only [hf] at h
      by_cases hlt : jsLt product.quantity item.quantity = true
      · simp [if_pos hlt] at h
      · rw [if_neg hlt] at h
        have hid : product.id = item.productId := find_id_eq _ _ _ hf
        obtain ⟨hs, hc, ht, hp, hm⟩ := ih (k + 1) _ db2 h
        refine ⟨hs, hc, ?_, ?_, ?_⟩
        · rw [ht]
          simp only [saleTxns, hid]
          simp [List.append_assoc]
        · rw [hp]
          exact updateFirst_map_id item.productId
            (fun p => { p with quantity := jsSub p.quantity item.quantity,
                               updatedAt := now }) (fun _ => rfl) db.products
        · intro i hi
          rcases List.mem_cons.mp hi with he | hr
          · subst he
            exact hid ▸ List.mem_map.mpr ⟨product, find_mem _ _ _ hf, rfl⟩
          · have hmem := hm i hr
            rwa [updateFirst_map_id item.productId
              (fun p => { p with quantity := jsSub p.quantity item.quantity,
                                 updatedAt := now }) (fun _ => rfl) db.products] at hmem

theorem processItems_notNeg (g : Nat → String) (now sid : String) :
    ∀ (items : List SaleItem) (k : Nat) (db db2 : State),
      processItems g now sid k db items = Except.ok db2 →
      (∀ p ∈ db.products, notNegative p.quantity = true) →
      ∀ p ∈ db2.products, notNegative p.quantity = true := by
  intro items
  induction items with
  | nil =>
    intro k db db2 h hpre
    simp only [processItems] at h
    cases h
    exact hpre
  | cons item rest ih =>
    intro k db db2 h hpre
    rw [processItems] at h
    cases hf : findProduct db.products item.productId with
    | none => simp [hf] at h
    | some product =>
      simp only [hf] at h
      by_cases hlt : jsLt product.quantity item.quantity = true
      · simp [if_pos hlt] at h
      · rw [if_neg hlt] at h
        refine ih (k + 1) _ db2 h ?_
        intro q hq
        rcases mem_updateFirst _ _ _ _ _ hf hq with hmem | he
        · exact hpre q hmem
        · subst he
          exact jsSub_notNegative _ _ (by simpa using hlt)

theorem processItems_sum (g : Nat → String) (now sid : String) :
    ∀ (items : List SaleItem) (k : Nat) (db db2 : State),
      processItems g now sid k db items = Except.ok db2 →
      (∀ p ∈ db.products, p.quantity.isSome = true) →
      (∀ i ∈ items, i.quantity.isSome = true) →
      (∀ p ∈ db2.products, p.quantity.isSome = true) ∧
      sumQty db.products - sumQty db2.products = sumItems items := by
  intro items
  induction items with
  | nil =>
    intro k db db2 h hdb _
    simp only [processItems] at h
    cases h
    exact ⟨hdb, by simp [sumItems]⟩
  | cons item rest ih =>
    intro k db db2 h hdb hitems
    rw [processItems] at h
    cases hf : findProduct db.products item.productId with
    | none => simp [hf] at h
    | some product =>
      simp only [hf] at h
      by_cases hlt : jsLt product.quantity item.quantity = true
      · simp [if_pos hlt] at h
      · rw [if_neg hlt] at h
        obtain ⟨x, hx⟩ := Option.isSome_iff_exists.mp
          (hdb product (find_mem _ _ _ hf))
        obtain ⟨y, hy⟩ := Option.isSome_iff_exists.mp
          (hitems item (List.mem_cons_self _ _))
        have hdb1 : ∀ p ∈ updateFirst db.products item.productId
            (fun p => { p with quantity := jsSub p.quantity item.quantity,
                               updatedAt := now }), p.quantity.isSome = true := by
          intro q hq
          rcases mem_updateFirst _ _ _ _ _ hf hq with hmem | he
          · exact hdb q hmem
          · subst he; simp [jsSub, hx, hy]
        obtain ⟨hall, hsum⟩ := ih (k + 1) _ db2 h hdb1
          (fun i hi => hitems i (List.mem_cons_of_mem _ hi))
        refine ⟨hall, ?_⟩
        have hsum2 : sumQty (updateFirst db.products item.productId fun p =>
            { p with quantity := jsSub p.quantity item.quantity,
                     updatedAt := now }) -
            sumQty db2.products = sumItems rest := hsum
        have h0 := sumQty_updateFirst item.productId
          (fun p => { p with quantity := jsSub p.quantity item.quantity,
                             updatedAt := now }) db.products product hf
        have hj : jsSub product.quantity item.quantity = some (x - y) := by
          rw [hx, hy]; rfl
        simp only [] at h0
        rw [hj, hx] at h0
        simp only [Option.getD_some] at h0
        have hcons : sumItems (item :: rest) = y + sumItems rest := by
          simp [sumItems, hy]
        rw [hcons]
        linarith [h0, hsum2]

theorem processItems_append (g : Nat → String) (now sid : String) :
    ∀ (xs ys : List SaleItem) (k : Nat) (db : State),
      processItems g now sid k db (xs ++ ys) =
        match processItems g now sid k db xs with
        | Except.error e => Except.error e
        | Except.ok db1 => processItems g now sid (k + xs.length) db1 ys := by
  intro xs
  induction xs with
  | nil => intro ys k db; simp [processItems]
  | cons x xs ih =>
    intro ys k db
    rw [List.cons_append, processItems, processItems]
    cases hf : findProduct db.products x.productId with
    | none => simp [hf]
    | some product =>
      simp only [hf]
      by_cases hlt : jsLt product.quantity x.quantity = true
      · rw [if_pos hlt, if_pos hlt]
      · rw [if_neg hlt, if_neg hlt]
        rw [ih]
        have harith : k + 1 + xs.length = k + (xs.length + 1) := by omega
        rw [harith]
        rfl

theorem processItems_error_shape (g : Nat → String) (now sid : String) :
    ∀ (items : List SaleItem) (k : Nat) (db : State) (e : SaleError),
      processItems g now sid k db items = Except.error e →
      (∃ pid, e = SaleError.notFound pid) ∨
      (∃ n a r, e = SaleError.insufficientStock n a r) := by
  intro items
  induction items with
  | nil => intro k db e h; simp [processItems] at h
  | cons item rest ih =>
    intro k db e h
    rw [processItems] at h
    cases hf : findProduct db.products item.productId with
    | none =>
      simp only [hf, Except.error.injEq] at h
      subst h
      exact Or.inl ⟨_, rfl⟩
    | some product =>
      simp only [hf] at h
      by_cases hlt : jsLt product.quantity item.quantity = true
      · rw [if_pos hlt] at h
        cases h
        exact Or.inr ⟨_, _, _, rfl⟩
      · rw [if_neg hlt] at h
        exact ih (k + 1) _ e h

theorem processItems_cons_error (g : Nat → String) (now sid : String)
    (k : Nat) (db1 : State) (itm : SaleItem) (post : List SaleItem)
    (e : SaleError) (h : itemError db1 itm = some e) :
    processItems g now sid k db1 (itm :: post) = Except.error e := by
  rw [processItems]
  unfold itemError at h
  cases hf : findProduct db1.products itm.productId with
  | none =>
    simp only [hf, Option.some.injEq] at h
    simp only [hf, h]
  | some p =>
    simp only [hf] at h ⊢
    by_cases hlt : jsLt p.quantity itm.quantity = true
    · rw [if_pos hlt] at h ⊢
      simp only [Option.some.injEq] at h
      rw [h]
    · rw [if_neg hlt] at h
      cases h

theorem saleTxns_map_type_qty (g : Nat → String) (now sid : String) :
    ∀ (items : List SaleItem) (k : Nat),
      (saleTxns g now sid k items).map (fun t => (t.type, t.quantity)) =
        items.map (fun i => ("out", i.quantity)) := by
  intro items
  induction items with
  | nil => intro k; rfl
  | cons i rest ih => intro k; simp [saleTxns, ih]

theorem mem_saleTxns (g : Nat → String) (now sid : String) :
    ∀ (items : List SaleItem) (k : Nat) (t : StockTransaction),
      t ∈ saleTxns g now sid k items → ∃ i ∈ items, t.productId = i.productId := by
  intro items
  induction items with
  | nil => intro k t h; simp [saleTxns] at h
  | cons i rest ih =>
    intro k t h
    rcases List.mem_cons.mp h with he | hr
    · exact ⟨i, List.mem_cons_self _ _, by rw [he]⟩
    · obtain ⟨j, hj, hje⟩ := ih (k + 1) t hr
      exact ⟨j, List.mem_cons_of_mem _ hj, hje⟩

theorem exists_id_of_map_eq {l1 l2 : List Product}
    (h : l2.map Product.id = l1.map Product.id) (pid : String)
    (hp : pid ∈ l1.map Product.id) : ∃ p ∈ l2, p.id = pid := by
  rw [← h] at hp
  obtain ⟨p, hpm, hpe⟩ := List.mem_map.mp hp
  exact ⟨p, hpm, hpe⟩

/-- Case analysis of one `recordSale` call: either some validation step
failed and `writeDatabase` was never reached, or every item passed the
loop and the merged document was handed to `writeDatabase` together with a
201 response. -/
theorem recordSale_spec (g : Nat → String) (now : String) (db : State)
    (req : SaleRequest) :
    ((recordSale g now db req).2 = none ∧
      ∃ e, (recordSale g now db req).1 = ApiResponse.failure e) ∨
    (∃ items db2, req.items = some items ∧ items.isEmpty = false ∧
      (!jsTruthy req.totalAmount || jsLe (toNumber req.totalAmount) (some 0))
        = false ∧
      processItems g now (g 0) 1 db (coerceItems items) = Except.ok db2 ∧
      (recordSale g now db req).1 =
        ApiResponse.success (builtSale g now req items) ∧
      (recordSale g now db req).2 =
        some { db2 with sales := db2.sales ++ [builtSale g now req items] }) := by
  cases hreq : req.items with
  | none =>
    refine Or.inl ⟨?_, SaleError.itemsRequired, ?_⟩ <;> simp [recordSale, hreq]
  | some items =>
    by_cases hemp : items.isEmpty
    · refine Or.inl ⟨?_, SaleError.itemsRequired, ?_⟩ <;>
        simp [recordSale, hreq, hemp]
    · have hemp' : items.isEmpty = false := by simpa using hemp
      by_cases htot : (!jsTruthy req.totalAmount
          || jsLe (toNumber req.totalAmount) (some 0)) = true
      · refine Or.inl ⟨?_, SaleError.invalidTotal, ?_⟩ <;>
          simp [recordSale, hreq, hemp', htot]
      · have htot' : (!jsTruthy req.totalAmount
            || jsLe (toNumber req.totalAmount) (some 0)) = false := by
          simpa using htot
        cases hp : processItems g now (g 0) 1 db (coerceItems items) with
        | error e =>
          refine Or.inl ⟨?_, e, ?_⟩ <;>
            simp [recordSale, hreq, hemp', htot', builtSale, hp]
        | ok db2 =>
          refine Or.inr ⟨items, db2, hreq ▸ rfl, hemp', htot', hp, ?_, ?_⟩ <;>
            simp [recordSale, hreq, hemp', htot', builtSale, hp]

/-! ## The claims -/

/-- Claim C1: every `recordSale` call whose response is a validation
failure never reaches `writeDatabase` (`.2 = none`), so the persisted
document after the call — whatever the outcome of a write would have
been — is exactly the document before it: no product quantity or
`updatedAt`, and neither the `sales` nor the `stockTransactions`
collection, changes, and no sale or ledger entry is appended. -/
theorem C1_failed_validation_leaves_state (g : Nat → String) (now : String)
    (db : State) (req : SaleRequest) (e : SaleError) (saveOk : Bool)
    (h : (recordSale g now db req).1 = ApiResponse.failure e) :
    (recordSale g now db req).2 = none ∧
    persistedAfter saveOk db (recordSale g now db req) = db := by
  rcases recordSale_spec g now db req with ⟨hw, _⟩ | ⟨items, db2, _, _, _, _, hs, _⟩
  · exact ⟨hw, by simp [persistedAfter, hw]⟩
  · rw [hs] at h
    cases h

theorem C1_witness :
    (recordSale demoGen "T" demoDb demoReqEmptyItems).1 =
      ApiResponse.failure SaleError.itemsRequired ∧
    (recordSale demoGen "T" demoDb demoReqEmptyItems).2 = none ∧
    persistedAfter true demoDb
      (recordSale demoGen "T" demoDb demoReqEmptyItems) = demoDb := by
  have h := C1_failed_validation_leaves_state demoGen "T" demoDb
    demoReqEmptyItems SaleError.itemsRequired true (by decide)
  exact ⟨by decide, h.1, h.2⟩

/-- Claim C2: when the pre-checks pass and every item passes the loop
(`processItems` succeeds), the operation commits exactly: the 201 response
carries the constructed sale with `customerName`/`paymentMethod` defaulted
when falsy; the document handed to `writeDatabase` appends that one sale;
one `out`-typed ledger entry per line item is appended, each with the
item's requested quantity; the product list keeps the same ids; and (for
numeric quantities) the total decrement across products equals the sum of
the items' quantities. -/
theorem C2_valid_sale_commits (g : Nat → String) (now : String) (db : State)
    (req : SaleRequest) (items : List RawItem) (db2 : State)
    (hitems : req.items = some items) (hne : items.isEmpty = false)
    (htot : (!jsTruthy req.totalAmount
      || jsLe (toNumber req.totalAmount) (some 0)) = false)
    (hok : processItems g now (g 0) 1 db (coerceItems items) = Except.ok db2)
    (hnum : ∀ p ∈ db.products, p.quantity.isSome = true)
    (hinum : ∀ i ∈ coerceItems items, i.quantity.isSome = true) :
    (recordSale g now db req).1 =
      ApiResponse.success (builtSale g now req items) ∧
    statusCode (recordSale g now db req).1 = 201 ∧
    (recordSale g now db req).2 =
      some { db2 with sales := db2.sales ++ [builtSale g now req items] } ∧
    db2.sales = db.sales ∧
    db2.stockTransactions =
      db.stockTransactions ++ saleTxns g now (g 0) 1 (coerceItems items) ∧
    (saleTxns g now (g 0) 1 (coerceItems items)).map
        (fun t => (t.type, t.quantity)) =
      (coerceItems items).map (fun i => ("out", i.quantity)) ∧
    db2.products.map Product.id = db.products.map Product.id ∧
    sumQty db.products - sumQty db2.products = sumItems (coerceItems items) ∧
    (jsTruthy req.customerName = false →
      (builtSale g now req items).customerName =
        JSVal.string "Walk-in Customer") ∧
    (jsTruthy req.paymentMethod = false →
      (builtSale g now req items).paymentMethod = JSVal.string "cash") := by
  obtain ⟨hsl, _, hst, hpid, _⟩ :=
    processItems_ok g now (g 0) (coerceItems items) 1 db db2 hok
  obtain ⟨_, hsum⟩ :=
    processItems_sum g now (g 0) (coerceItems items) 1 db db2 hok hnum hinum
  refine ⟨?_, ?_, ?_, hsl, hst, saleTxns_map_type_qty g now (g 0) _ 1,
    hpid, hsum, ?_, ?_⟩
  · simp [recordSale, hitems, hne, htot, builtSale, hok]
  · simp [recordSale, hitems, hne, htot, builtSale, hok, statusCode]
  · simp [recordSale, hitems, hne, htot, builtSale, hok]
  · intro hcn; simp [builtSale, jsOr, hcn]
  · intro hpm; simp [builtSale, jsOr, hpm]

theorem C2_witness :
    (recordSale demoGen "T" demoDb demoReq).1 = ApiResponse.success demoSale ∧
    statusCode (recordSale demoGen "T" demoDb demoReq).1 = 201 ∧
    (recordSale demoGen "T" demoDb demoReq).2 = some demoFinal ∧
    demoFinal.products.map Product.quantity = [some 7] ∧
    demoFinal.stockTransactions =
      [{ id := "txn-1", productId := "p1", type := "out", quantity := some 3,
         reason := "Sale #sale-1", date := "T" }] ∧
    sumQty demoDb.products - sumQty demoDb2.products =
      sumItems (coerceItems [demoItem]) ∧
    demoSale.customerName = JSVal.string "Walk-in Customer" ∧
    demoSale.paymentMethod = JSVal.string "cash" := by
  have h := C2_valid_sale_commits demoGen "T" demoDb demoReq [demoItem] demoDb2
    rfl (by decide) (by decide) (by rfl) (by decide) (by decide)
  refine ⟨?_, h.2.1, ?_, by decide, by decide, h.2.2.2.2.2.2.2.1, by decide,
    by decide⟩
  · rw [h.1]; decide
  · rw [h.2.2.1]; decide

/-- Claim C3 (code bug): the route ignores `writeDatabase`'s boolean
result.  Evaluated at Scenario 1 with the underlying write failing
(`saveOk = false`): the response is still 201 `Sale recorded` with the
full sale, although the persisted document is unchanged — no 5xx
persistence error is ever produced. -/
theorem C3_write_failure_still_reports_success :
    (recordSale demoGen "T" demoDb demoReq).1 = ApiResponse.success demoSale ∧
    statusCode (recordSale demoGen "T" demoDb demoReq).1 = 201 ∧
    (recordSale demoGen "T" demoDb demoReq).2 = some demoFinal ∧
    persistedAfter false demoDb (recordSale demoGen "T" demoDb demoReq) =
      demoDb ∧
    demoFinal ≠ demoDb := by decide

/-- Claim C4: items are checked in array order; as soon as one item fails
(`itemError`), processing stops with exactly that item's error — a missing
product yields `notFound` with that `productId`, insufficient stock yields
`insufficientStock` carrying the product's name, its available quantity
and the requested quantity — and `writeDatabase` is never reached.  The
response is a single 400 error, never an aggregate. -/
theorem C4_first_violation_wins (g : Nat → String) (now : String)
    (db : State) (req : SaleRequest) (items : List RawItem)
    (pre post : List SaleItem) (itm : SaleItem) (db1 : State) (e : SaleError)
    (hitems : req.items = some items) (hne : items.isEmpty = false)
    (htot : (!jsTruthy req.totalAmount
      || jsLe (toNumber req.totalAmount) (some 0)) = false)
    (hsplit : coerceItems items = pre ++ itm :: post)
    (hpre : processItems g now (g 0) 1 db pre = Except.ok db1)
    (herr : itemError db1 itm = some e) :
    (recordSale g now db req).1 = ApiResponse.failure e ∧
    (recordSale g now db req).2 = none ∧
    statusCode (recordSale g now db req).1 = 400 := by
  have hfull : processItems g now (g 0) 1 db (coerceItems items) =
      Except.error e := by
    rw [hsplit, processItems_append, hpre]
    exact processItems_cons_error g now (g 0) (1 + pre.length) db1 itm post e herr
  refine ⟨?_, ?_, ?_⟩ <;>
    simp [recordSale, hitems, hne, htot, builtSale, hfull, statusCode]

theorem C4_witness :
    itemError demoDb2 ghostSaleItem = some (SaleError.notFound "ghost") ∧
    (recordSale demoGen "T" demoDb demoReqGhost).1 =
      ApiResponse.failure (SaleError.notFound "ghost") ∧
    (recordSale demoGen "T" demoDb demoReqGhost).2 = none := by
  have h := C4_first_violation_wins demoGen "T" demoDb demoReqGhost
    [demoItem, ghostItem] [demoSaleItem] [] ghostSaleItem demoDb2
    (SaleError.notFound "ghost") rfl (by decide) (by decide) (by decide)
    (by rfl) (by decide)
  exact ⟨by decide, h.1, h.2.1⟩

/-- Claim C5 (amended): the route rejects with
`InvalidInput("valid totalAmount required")` exactly when `totalAmount` is
falsy (absent, `null`, `0`, `false`, `NaN`, or the empty string) or
coerces to a number `≤ 0`; a truthy value that coerces to `NaN` (for
example a non-numeric non-empty string) is NOT rejected, contrary to the
claim as stated.  Whenever this rejection fires, `writeDatabase` is not
reached. -/
theorem C5_total_amount_check (g : Nat → String) (now : String) (db : State)
    (req : SaleRequest) (items : List RawItem)
    (hitems : req.items = some items) (hne : items.isEmpty = false) :
    ((recordSale g now db req).1 = ApiResponse.failure SaleError.invalidTotal ↔
      (jsTruthy req.totalAmount = false ∨
        jsLe (toNumber req.totalAmount) (some 0) = true)) ∧
    ((recordSale g now db req).1 = ApiResponse.failure SaleError.invalidTotal →
      (recordSale g now db req).2 = none) := by
  by_cases hcond : (!jsTruthy req.totalAmount
      || jsLe (toNumber req.totalAmount) (some 0)) = true
  · have h1 : (recordSale g now db req).1 =
        ApiResponse.failure SaleError.invalidTotal := by
      simp [recordSale, hitems, hne, hcond]
    have h2 : (recordSale g now db req).2 = none := by
      simp [recordSale, hitems, hne, hcond]
    exact ⟨⟨fun _ => by simpa using hcond, fun _ => h1⟩, fun _ => h2⟩
  · have hcond' : (!jsTruthy req.totalAmount
        || jsLe (toNumber req.totalAmount) (some 0)) = false := by
      simpa using hcond
    have hnottot : ¬ (jsTruthy req.totalAmount = false ∨
        jsLe (toNumber req.totalAmount) (some 0) = true) := by
      simp only [Bool.or_eq_false_iff, Bool.not_eq_false'] at hcond'
      rcases hcond' with ⟨ht, hle⟩
      rintro (hfalse | htrue)
      · rw [ht] at hfalse; cases hfalse
      · rw [hle] at htrue; cases htrue
    cases hp : processItems g now (g 0) 1 db (coerceItems items) with
    | error e =>
      have h1 : (recordSale g now db req).1 = ApiResponse.failure e := by
        simp [recordSale, hitems, hne, hcond', builtSale, hp]
      have hshape :=
        processItems_error_shape g now (g 0) (coerceItems items) 1 db e hp
      have hnotiv : (recordSale g now db req).1 ≠
          ApiResponse.failure SaleError.invalidTotal := by
        rw [h1]
        rcases hshape with ⟨pid, rfl⟩ | ⟨n, a, r, rfl⟩ <;> simp
      exact ⟨⟨fun hiv => absurd hiv hnotiv, fun hd => absurd hd hnottot⟩,
        fun hiv => absurd hiv hnotiv⟩
    | ok db2 =>
      have h1 : (recordSale g now db req).1 =
          ApiResponse.success (builtSale g now req items) := by
        simp [recordSale, hitems, hne, hcond', builtSale, hp]
      have hnotiv : (recordSale g now db req).1 ≠
          ApiResponse.failure SaleError.invalidTotal := by
        rw [h1]; simp
      exact ⟨⟨fun hiv => absurd hiv hnotiv, fun hd => absurd hd hnottot⟩,
        fun hiv => absurd hiv hnotiv⟩

theorem C5_witness :
    ((recordSale demoGen "T" demoDb
        { demoReq with totalAmount := JSVal.number (some 0) }).1 =
      ApiResponse.failure SaleError.invalidTotal) ∧
    ((recordSale demoGen "T" demoDb
        { demoReq with totalAmount := JSVal.number (some 0) }).2 = none) := by
  have h := C5_total_amount_check demoGen "T" demoDb
    { demoReq with totalAmount := JSVal.number (some 0) } [demoItem] rfl
    (by decide)
  have h1 := h.1.mpr (Or.inl (by decide))
  exact ⟨h1, h.2 h1⟩

/-- Claim C5, counterexample to the claim as stated: `totalAmount = "abc"`
does not coerce to a number greater than 0 (`Number("abc")` is `NaN`), yet
the request is not rejected with the `totalAmount` error: it succeeds with
201 and mutates the store. -/
theorem C5_counterexample :
    toNumber (JSVal.string "abc") = none ∧
    jsTruthy (JSVal.string "abc") = true ∧
    (recordSale demoGen "T" demoDb demoReqNanTotal).1 =
      ApiResponse.success { demoSale with totalAmount := none } ∧
    (recordSale demoGen "T" demoDb demoReqNanTotal).1 ≠
      ApiResponse.failure SaleError.invalidTotal ∧
    (recordSale demoGen "T" demoDb demoReqNanTotal).2 ≠ none := by decide

/-- Claim C6: if no product quantity is negative before the call (in the
JavaScript sense: `q < 0` is false, which also admits `NaN`), then after
any `recordSale` call — success or failure, duplicate product ids allowed,
any save outcome — no product quantity in the persisted document is
negative: the loop's `product.quantity < item.quantity` guard runs against
the already-decremented quantity, so each committed decrement leaves a
non-negative (or `NaN`) value. -/
theorem C6_quantity_never_negative (g : Nat → String) (now : String)
    (db : State) (req : SaleRequest) (saveOk : Bool)
    (h : ∀ p ∈ db.products, notNegative p.quantity = true) :
    ∀ p ∈ (persistedAfter saveOk db (recordSale g now db req)).products,
      notNegative p.quantity = true := by
  rcases recordSale_spec g now db req with ⟨hw, _⟩ |
    ⟨items, db2, _, _, _, hp, _, hw⟩
  · simpa [persistedAfter, hw] using h
  · cases saveOk
    · simpa [persistedAfter, hw] using h
    · have hpa : persistedAfter true db (recordSale g now db req) =
          { db2 with sales := db2.sales ++ [builtSale g now req items] } := by
        simp [persistedAfter, hw]
      rw [hpa]
      intro p hp2
      exact processItems_notNeg g now (g 0) (coerceItems items) 1 db db2 hp h p hp2

theorem C6_witness : notNegative demoProductAfter.quantity = true :=
  C6_quantity_never_negative demoGen "T" demoDb demoReq true (by decide)
    demoProductAfter (by decide)

/-- Claim C7: if the document satisfies referential integrity, then after
a successful `recordSale` (with any save outcome) the persisted document
still does: the loop only appends ledger entries for products it found,
the sale's items were each found during the loop, the product list keeps
exactly the same ids, and products are never removed. -/
theorem C7_referential_integrity (g : Nat → String) (now : String)
    (db : State) (req : SaleRequest) (saveOk : Bool) (sale : Sale)
    (hri : refIntegrity db)
    (hs : (recordSale g now db req).1 = ApiResponse.success sale) :
    refIntegrity (persistedAfter saveOk db (recordSale g now db req)) := by
  rcases recordSale_spec g now db req with ⟨_, e, hf⟩ |
    ⟨items, db2, _, _, _, hp, _, hw⟩
  · rw [hs] at hf; cases hf
  · cases saveOk
    · simpa [persistedAfter, hw] using hri
    · have hpa : persistedAfter true db (recordSale g now db req) =
          { db2 with sales := db2.sales ++ [builtSale g now req items] } := by
        simp [persistedAfter, hw]
      rw [hpa]
      obtain ⟨hsl, _, hst, hpid, hmem⟩ :=
        processItems_ok g now (g 0) (coerceItems items) 1 db db2 hp
      constructor
      · intro t htm
        rw [show ({ db2 with sales := db2.sales ++ [builtSale g now req items]
            } : State).stockTransactions = db2.stockTransactions from rfl,
          hst] at htm
        rcases List.mem_append.mp htm with hold | hnew
        · obtain ⟨p, hpm, hpe⟩ := hri.1 t hold
          exact exists_id_of_map_eq hpid t.productId
            (hpe ▸ List.mem_map.mpr ⟨p, hpm, rfl⟩)
        · obtain ⟨i, hi, hie⟩ := mem_saleTxns g now (g 0) _ 1 t hnew
          exact exists_id_of_map_eq hpid t.productId (hie ▸ hmem i hi)
      · intro sl hsm it hit
        rw [show ({ db2 with sales := db2.sales ++ [builtSale g now req items]
            } : State).sales = db2.sales ++ [builtSale g now req items] from rfl,
          hsl] at hsm
        rcases List.mem_append.mp hsm with hold | hnew
        · obtain ⟨p, hpm, hpe⟩ := hri.2 sl hold it hit
          exact exists_id_of_map_eq hpid it.productId
            (hpe ▸ List.mem_map.mpr ⟨p, hpm, rfl⟩)
        · have hsl2 : sl = builtSale g now req items := by simpa using hnew
          subst hsl2
          exact exists_id_of_map_eq hpid it.productId
            (hmem it (by simpa [builtSale] using hit))

theorem C7_witness :
    refIntegrity (persistedAfter true demoDb
      (recordSale demoGen "T" demoDb demoReq)) :=
  C7_referential_integrity demoGen "T" demoDb demoReq true demoSale
    (by constructor <;> decide) (by decide)

/-- Claim C10: the route validates neither an item's `quantity` nor its
`price`.  A single-item sale whose quantity coerces to `n ≤ 0` against a
product with numeric stock `x` not below `n` is committed: 201, an `out`
ledger entry with quantity `n` (0 or negative) is appended, and the
product's stock becomes `x - n` — unchanged for `n = 0` and strictly
increased for `n < 0` — contradicting the data model's `quantity > 0`
constraints without being rejected. -/
theorem C10_no_item_quantity_validation (g : Nat → String) (now : String)
    (db : State) (req : SaleRequest) (i : RawItem) (p : Product) (x n : Int)
    (hitems : req.items = some [i])
    (htot : (!jsTruthy req.totalAmount
      || jsLe (toNumber req.totalAmount) (some 0)) = false)
    (hfind : findProduct db.products i.productId = some p)
    (hx : p.quantity = some x)
    (hn : toNumber i.quantity = some n)
    (hn0 : n ≤ 0) (hxn : ¬ x < n) :
    (recordSale g now db req).1 =
      ApiResponse.success (builtSale g now req [i]) ∧
    statusCode (recordSale g now db req).1 = 201 ∧
    (recordSale g now db req).2 = some
      { products := updateFirst db.products i.productId
          (fun q => { q with quantity := jsSub q.quantity (toNumber i.quantity),
                             updatedAt := now }),
        sales := db.sales ++ [builtSale g now req [i]],
        customers := db.customers,
        stockTransactions := db.stockTransactions ++
          [{ id := g 1, productId := p.id, type := "out",
             quantity := some n, reason := "Sale #" ++ g 0, date := now }] } ∧
    jsSub p.quantity (some n) = some (x - n) ∧
    x ≤ x - n ∧ (n < 0 → x < x - n) := by
  have hguard : jsLt p.quantity (toNumber i.quantity) = false := by
    rw [hx, hn]
    simpa [jsLt] using hxn
  have hone : processItems g now (g 0) 1 db (coerceItems [i]) =
      Except.ok
        { products := updateFirst db.products i.productId
            (fun q => { q with
              quantity := jsSub q.quantity (toNumber i.quantity),
              updatedAt := now }),
          sales := db.sales,
          customers := db.customers,
          stockTransactions := db.stockTransactions ++
            [{ id := g 1, productId := p.id, type := "out",
               quantity := some n, reason := "Sale #" ++ g 0, date := now }] } := by
    rw [show coerceItems [i] =
      [{ productId := i.productId, name := i.name, price := toNumber i.price,
         quantity := toNumber i.quantity }] from rfl]
    rw [processItems]
    simp only [hfind, hguard]
    rw [if_neg (by simp)]
    rw [processItems]
    simp [hn]
  refine ⟨?_, ?_, ?_, ?_, by omega, fun hlt => by omega⟩
  · simp [recordSale, hitems, htot, builtSale, hone]
  · simp [recordSale, hitems, htot, builtSale, hone, statusCode]
  · simp [recordSale, hitems, htot, builtSale, hone]
  · rw [hx]; simp [jsSub]

theorem C10_witness :
    (recordSale demoGen "T" demoDb demoReqNeg).1 =
      ApiResponse.success (builtSale demoGen "T" demoReqNeg [negItem]) ∧
    statusCode (recordSale demoGen "T" demoDb demoReqNeg).1 = 201 ∧
    (recordSale demoGen "T" demoDb demoReqNeg).2 = some
      { products := updateFirst demoDb.products negItem.productId
          (fun q => { q with
            quantity := jsSub q.quantity (toNumber negItem.quantity),
            updatedAt := "T" }),
        sales := demoDb.sales ++ [builtSale demoGen "T" demoReqNeg [negItem]],
        customers := demoDb.customers,
        stockTransactions := demoDb.stockTransactions ++
          [{ id := "txn-1", productId := "p1", type := "out",
             quantity := some (-5), reason := "Sale #sale-1", date := "T" }] } ∧
    jsSub demoProduct.quantity (some (-5)) = some (10 - (-5)) ∧
    (10 : Int) ≤ 10 - (-5) ∧ ((-5 : Int) < 0 → (10 : Int) < 10 - (-5)) := by
  have h := C10_no_item_quantity_validation demoGen "T" demoDb demoReqNeg
    negItem demoProduct 10 (-5) rfl (by decide) (by decide) (by decide)
    (by decide) (by decide) (by decide)
  exact ⟨h.1, h.2.1, by rw [h.2.2.1]; decide, h.2.2.2.1, h.2.2.2.2.1,
    h.2.2.2.2.2⟩

/-! ## Round-trip lemmas for the storage serializer/parser -/

theorem skipWs_cons_of_ws (c : Char) (l : List Char) (h : isWs c = true) :
    skipWs (c :: l) = skipWs l := by simp [skipWs, h]

theorem skipWs_cons_of_not_ws (c : Char) (l : List Char) (h : isWs c = false) :
    skipWs (c :: l) = c :: l := by simp [skipWs, h]

theorem skipWs_indent (k : Nat) (l : List Char) :
    skipWs (indentChars k ++ l) = skipWs l := by
  induction k with
  | zero => rfl
  | succ k ih =>
    rw [indentChars, List.replicate_succ, List.cons_append,
      skipWs_cons_of_ws _ _ (by decide)]
    exact ih

theorem skipWs_idem (l : List Char) : skipWs (skipWs l) = skipWs l := by
  induction l with
  | nil => rfl
  | cons c cs ih =>
    by_cases h : isWs c = true
    · rw [skipWs_cons_of_ws _ _ h]; exact ih
    · have h' : isWs c = false := by simpa using h
      rw [skipWs_cons_of_not_ws _ _ h', skipWs_cons_of_not_ws _ _ h']

theorem parseStep_skipWs (fuel : Nat) (mode : PMode) (l : List Char) :
    parseStep fuel mode l = parseStep fuel mode (skipWs l) := by
  cases fuel with
  | zero => rfl
  | succ f => simp only [parseStep, skipWs_idem]

theorem parseStep_value_cons (fuel : Nat) (c : Char) (cs : List Char)
    (h : isWs c = false) :
    parseStep (fuel + 1) PMode.value (c :: cs) =
      valueAt (fun m l2 => parseStep fuel m l2) c cs := by
  simp only [parseStep, skipWs_cons_of_not_ws _ _ h]

theorem parseStep_elems_cons (fuel : Nat) (c : Char) (cs : List Char)
    (h : isWs c = false) :
    parseStep (fuel + 1) PMode.elems (c :: cs) =
      elemsAt (fun m l2 => parseStep fuel m l2) c cs := by
  simp only [parseStep, skipWs_cons_of_not_ws _ _ h]

theorem parseStep_members_cons (fuel : Nat) (c : Char) (cs : List Char)
    (h : isWs c = false) :
    parseStep (fuel + 1) PMode.members (c :: cs) =
      membersAt (fun m l2 => parseStep fuel m l2) c cs := by
  simp only [parseStep, skipWs_cons_of_not_ws _ _ h]

theorem parseStep_member_cons (fuel : Nat) (c : Char) (cs : List Char)
    (h : isWs c = false) :
    parseStep (fuel + 1) PMode.member (c :: cs) =
      memberAt (fun m l2 => parseStep fuel m l2) c cs := by
  simp only [parseStep, skipWs_cons_of_not_ws _ _ h]

theorem isWs_eq_false_of_isDigit (c : Char) (h : c.isDigit = true) :
    isWs c = false := by
  simp only [isWs, Bool.or_eq_false_iff]
  refine ⟨⟨⟨?_, ?_⟩, ?_⟩, ?_⟩ <;>
    · rw [decide_eq_false_iff_not]
      rintro rfl
      exact absurd h (by decide)

theorem digitOf_isDigit : ∀ k, k < 10 → (digitOf k).isDigit = true := by decide

theorem digitVal_digitOf : ∀ k, k < 10 → digitVal (digitOf k) = k := by decide

theorem hexVal_hexDigitOf : ∀ k, k < 16 → hexVal (hexDigitOf k) = some k := by
  decide

theorem natChars_spec (n : Nat) :
    (∃ c t, natChars n = c :: t) ∧ ∀ c ∈ natChars n, c.isDigit = true := by
  induction n using Nat.strong_induction_on with
  | _ n ih =>
    rw [natChars]
    by_cases h : n < 10
    · rw [if_pos h]
      refine ⟨⟨_, _, rfl⟩, ?_⟩
      intro c hc
      rw [List.mem_singleton.mp hc]
      exact digitOf_isDigit n h
    · rw [if_neg h]
      obtain ⟨⟨c, t, hct⟩, hall⟩ :=
        ih (n / 10) (Nat.div_lt_self (by omega) (by omega))
      refine ⟨⟨c, t ++ [digitOf (n % 10)], by rw [hct]; rfl⟩, ?_⟩
      intro x hx
      rcases List.mem_append.mp hx with h1 | h2
      · exact hall x h1
      · rw [List.mem_singleton.mp h2]
        exact digitOf_isDigit (n % 10) (by omega)

theorem digitsLoop_digits :
    ∀ (ds : List Char), (∀ c ∈ ds, c.isDigit = true) →
      ∀ (acc : Nat) (rest : List Char), noDigit rest →
        digitsLoop acc (ds ++ rest) =
          (ds.foldl (fun a c => a * 10 + digitVal c) acc, rest) := by
  intro ds
  induction ds with
  | nil =>
    intro _ acc rest hnd
    cases rest with
    | nil => rfl
    | cons c cs =>
      have hc : c.isDigit = false := hnd
      simp [digitsLoop, hc]
  | cons d ds ih =>
    intro hall acc rest hnd
    rw [List.cons_append, digitsLoop,
      if_pos (hall d (List.mem_cons_self _ _))]
    rw [ih (fun c hc => hall c (List.mem_cons_of_mem _ hc)) _ rest hnd]
    rfl

theorem foldl_natChars (n : Nat) : ∀ acc : Nat,
    (natChars n).foldl (fun a c => a * 10 + digitVal c) acc =
      acc * 10 ^ (natChars n).length + n := by
  induction n using Nat.strong_induction_on with
  | _ n ih =>
    intro acc
    rw [natChars]
    by_cases h : n < 10
    · rw [if_pos h]
      simp [digitVal_digitOf n h]
    · rw [if_neg h]
      rw [List.foldl_append,
        ih (n / 10) (Nat.div_lt_self (by omega) (by omega)) acc]
      have hmod : n / 10 * 10 + n % 10 = n := by omega
      simp only [List.foldl, digitVal_digitOf (n % 10) (by omega),
        List.length_append, List.length_singleton]
      calc (acc * 10 ^ (natChars (n / 10)).length + n / 10) * 10 + n % 10
          = acc * (10 ^ (natChars (n / 10)).length * 10)
              + (n / 10 * 10 + n % 10) := by ring
        _ = acc * 10 ^ ((natChars (n / 10)).length + 1) + n := by
            rw [hmod, pow_succ]

theorem parseDigits_natChars (n : Nat) (rest : List Char)
    (hnd : noDigit rest) : parseDigits (natChars n ++ rest) = some (n, rest) := by
  obtain ⟨⟨c, t, hct⟩, hall⟩ := natChars_spec n
  have hc : c.isDigit = true := hall c (by rw [hct]; exact List.mem_cons_self _ _)
  rw [hct, List.cons_append, parseDigits, if_pos hc]
  rw [digitsLoop_digits t
    (fun x hx => hall x (by rw [hct]; exact List.mem_cons_of_mem _ hx))
    (digitVal c) rest hnd]
  have hfold : (c :: t).foldl (fun a c => a * 10 + digitVal c) 0 = n := by
    rw [← hct, foldl_natChars n 0]
    simp
  simp only [List.foldl] at hfold
  simp only [Nat.zero_mul, Nat.zero_add] at hfold
  rw [hfold]

theorem strBody_escape : ∀ (l rest : List Char),
    strBody (escChars l ++ '"' :: rest) = some (l, rest) := by
  intro l
  induction l with
  | nil =>
    intro rest
    show strBody ('"' :: rest) = some ([], rest)
    simp [strBody]
  | cons c l ih =>
    intro rest
    have hesc : escChars (c :: l) ++ '"' :: rest =
        escChar c ++ (escChars l ++ '"' :: rest) := by simp [escChars]
    rw [hesc]
    by_cases h1 : c = '"'
    · subst h1; simp [escChar, strBody, strEsc, ih]
    · by_cases h2 : c = '\\'
      · subst h2; simp [escChar, strBody, strEsc, ih]
      · by_cases h3 : c = '\n'
        · subst h3; simp [escChar, strBody, strEsc, h1, h2, ih]
        · by_cases h4 : c = '\t'
          · subst h4; simp [escChar, strBody, strEsc, h1, h2, h3, ih]
          · by_cases h5 : c = '\r'
            · subst h5; simp [escChar, strBody, strEsc, h1, h2, h3, h4, ih]
            · by_cases h6 : c.toNat = 8
              · have hc : c = Char.ofNat 8 := by
                  rw [← h6, Char.ofNat_toNat]
                rw [escChar, if_neg h1, if_neg h2, if_neg h3, if_neg h4,
                  if_neg h5, if_pos h6]
                simp [strBody, strEsc, ih, hc]
              · by_cases h7 : c.toNat = 12
                · have hc : c = Char.ofNat 12 := by
                    rw [← h7, Char.ofNat_toNat]
                  rw [escChar, if_neg h1, if_neg h2, if_neg h3, if_neg h4,
                    if_neg h5, if_neg h6, if_pos h7]
                  simp [strBody, strEsc, ih, hc]
                · by_cases h8 : c.toNat < 32
                  · rw [escChar, if_neg h1, if_neg h2, if_neg h3, if_neg h4,
                      if_neg h5, if_neg h6, if_neg h7, if_pos h8]
                    have hdiv : c.toNat / 16 < 16 := by omega
                    have hmod : c.toNat % 16 < 16 := by omega
                    simp only [List.cons_append, List.nil_append]
                    rw [strBody]
                    rw [if_neg (by decide : ¬('\\' : Char) = '"'),
                      if_pos (rfl : ('\\' : Char) = '\\')]
                    rw [strEsc]
                    rw [if_neg (by decide : ¬('u' : Char) = '"'),
                      if_neg (by decide : ¬('u' : Char) = '\\'),
                      if_neg (by decide : ¬('u' : Char) = '/'),
                      if_neg (by decide : ¬('u' : Char) = 'n'),
                      if_neg (by decide : ¬('u' : Char) = 't'),
                      if_neg (by decide : ¬('u' : Char) = 'r'),
                      if_neg (by decide : ¬('u' : Char) = 'b'),
                      if_neg (by decide : ¬('u' : Char) = 'f'),
                      if_pos (rfl : ('u' : Char) = 'u')]
                    rw [strHex]
                    rw [show hexVal '0' = some 0 from by decide,
                      hexVal_hexDigitOf _ hdiv, hexVal_hexDigitOf _ hmod]
                    simp only [Option.bind]
                    rw [ih]
                    have harith : ((0 * 16 + 0) * 16 + c.toNat / 16) * 16
                        + c.toNat % 16 = c.toNat := by omega
                    rw [harith, Char.ofNat_toNat]
                    rfl
                  · rw [escChar, if_neg h1, if_neg h2, if_neg h3, if_neg h4,
                      if_neg h5, if_neg h6, if_neg h7, if_neg h8]
                    rw [List.cons_append, List.nil_append, strBody,
                      if_neg h1, if_neg h2]
                    rw [ih]
                    rfl

theorem serJ_head (d : Nat) (j : Json) :
    ∃ c t, serJ d j = c :: t ∧ isWs c = false ∧ c ≠ ']' ∧ c ≠ '}' := by
  cases j with
  | null => exact ⟨'n', ['u', 'l', 'l'], by simp [serJ], by decide, by decide,
      by decide⟩
  | boolean b =>
    cases b
    · exact ⟨'f', ['a', 'l', 's', 'e'], by simp [serJ], by decide, by decide,
        by decide⟩
    · exact ⟨'t', ['r', 'u', 'e'], by simp [serJ], by decide, by decide,
        by decide⟩
  | num n =>
    by_cases hn : n < 0
    · exact ⟨'-', natChars n.natAbs, by simp [serJ, intChars, hn], by decide,
        by decide, by decide⟩
    · obtain ⟨⟨c, t, hct⟩, hall⟩ := natChars_spec n.toNat
      have hc : c.isDigit = true :=
        hall c (by rw [hct]; exact List.mem_cons_self _ _)
      refine ⟨c, t, by simp [serJ, intChars, hn, hct],
        isWs_eq_false_of_isDigit c hc, ?_, ?_⟩ <;>
        · rintro rfl
          exact absurd hc (by decide)
  | str s =>
    exact ⟨'"', escChars s.data ++ ['"'], by simp [serJ, quoteStr], by decide,
      by decide, by decide⟩
  | arr xs =>
    cases xs with
    | nil => exact ⟨'[', [']'], by simp [serJ], by decide, by decide, by decide⟩
    | cons x xs =>
      exact ⟨'[', '\n' :: (indentChars (d + 2) ++ serJ (d + 2) x
        ++ serArrTail d xs), by simp [serJ], by decide, by decide, by decide⟩
  | obj fs =>
    cases fs with
    | nil => exact ⟨'{', ['}'], by simp [serJ], by decide, by decide, by decide⟩
    | cons m ms =>
      exact ⟨'{', '\n' :: (indentChars (d + 2) ++ serMember d m
        ++ serObjTail d ms), by simp [serJ], by decide, by decide, by decide⟩

theorem noDigit_serArrTail (d : Nat) (xs : List Json) (z : List Char) :
    noDigit (serArrTail d xs ++ z) := by
  cases xs with
  | nil =>
    rw [show serArrTail d [] = '\n' :: (indentChars d ++ [']']) from by
      simp [serArrTail]]
    rw [List.cons_append]
    show ('\n').isDigit = false
    decide
  | cons y ys =>
    rw [show serArrTail d (y :: ys) = ',' :: '\n' :: (indentChars (d + 2)
      ++ serJ (d + 2) y ++ serArrTail d ys) from by simp [serArrTail]]
    rw [List.cons_append]
    show (',').isDigit = false
    decide

theorem noDigit_serObjTail (d : Nat) (fs : List (String × Json))
    (z : List Char) : noDigit (serObjTail d fs ++ z) := by
  cases fs with
  | nil =>
    rw [show serObjTail d [] = '\n' :: (indentChars d ++ ['}']) from by
      simp [serObjTail]]
    rw [List.cons_append]
    show ('\n').isDigit = false
    decide
  | cons m ms =>
    rw [show serObjTail d (m :: ms) = ',' :: '\n' :: (indentChars (d + 2)
      ++ serMember d m ++ serObjTail d ms) from by simp [serObjTail]]
    rw [List.cons_append]
    show (',').isDigit = false
    decide

theorem skipWs_to_serJ (d k : Nat) (j : Json) (z : List Char) :
    skipWs (indentChars k ++ (serJ d j ++ z)) = serJ d j ++ z := by
  rw [skipWs_indent]
  obtain ⟨c, t, hct, hws, _, _⟩ := serJ_head d j
  rw [hct, List.cons_append, skipWs_cons_of_not_ws _ _ hws]

theorem valueAt_null (next : PMode → List Char → Option PRes)
    (cs2 : List Char) :
    valueAt next 'n' ('u' :: 'l' :: 'l' :: cs2) = some (PRes.v Json.null cs2) := by
  simp only [valueAt]
  rw [if_neg (by decide : ¬('n' : Char).isDigit = true),
    if_neg (by decide : ¬('n' : Char) = '-')]
  simp [expectChars]

theorem valueAt_true (next : PMode → List Char → Option PRes)
    (cs2 : List Char) :
    valueAt next 't' ('r' :: 'u' :: 'e' :: cs2) =
      some (PRes.v (Json.boolean true) cs2) := by
  simp only [valueAt]
  rw [if_neg (by decide : ¬('t' : Char).isDigit = true),
    if_neg (by decide : ¬('t' : Char) = '-'),
    if_neg (by decide : ¬('t' : Char) = 'n')]
  simp [expectChars]

theorem valueAt_false (next : PMode → List Char → Option PRes)
    (cs2 : List Char) :
    valueAt next 'f' ('a' :: 'l' :: 's' :: 'e' :: cs2) =
      some (PRes.v (Json.boolean false) cs2) := by
  simp only [valueAt]
  rw [if_neg (by decide : ¬('f' : Char).isDigit = true),
    if_neg (by decide : ¬('f' : Char) = '-'),
    if_neg (by decide : ¬('f' : Char) = 'n'),
    if_neg (by decide : ¬('f' : Char) = 't')]
  simp [expectChars]

theorem valueAt_digit (next : PMode → List Char → Option PRes) (c : Char)
    (cs : List Char) (h : c.isDigit = true) :
    valueAt next c cs =
      match parseDigits (c :: cs) with
      | some (n, rest2) => some (PRes.v (Json.num (n : Int)) rest2)
      | none => none := by
  simp only [valueAt, if_pos h]

theorem valueAt_minus (next : PMode → List Char → Option PRes)
    (cs : List Char) :
    valueAt next '-' cs =
      match parseDigits cs with
      | some (n, rest2) => some (PRes.v (Json.num (-(n : Int))) rest2)
      | none => none := by
  simp only [valueAt]
  rw [if_neg (by decide : ¬('-' : Char).isDigit = true)]
  simp

theorem valueAt_quote (next : PMode → List Char → Option PRes)
    (cs : List Char) :
    valueAt next '"' cs =
      match strBody cs with
      | some (cs2, rest2) => some (PRes.v (Json.str (String.mk cs2)) rest2)
      | none => none := by
  simp only [valueAt]
  rw [if_neg (by decide : ¬('"' : Char).isDigit = true),
    if_neg (by decide : ¬('"' : Char) = '-'),
    if_neg (by decide : ¬('"' : Char) = 'n'),
    if_neg (by decide : ¬('"' : Char) = 't'),
    if_neg (by decide : ¬('"' : Char) = 'f')]
  simp

theorem valueAt_lbrack (next : PMode → List Char → Option PRes)
    (cs : List Char) :
    valueAt next '[' cs =
      (match skipWs cs with
       | [] => none
       | c2 :: cs2 =>
         if c2 = ']' then some (PRes.v (Json.arr []) cs2)
         else
           match next PMode.value (c2 :: cs2) with
           | some (PRes.v j rest2) =>
             match next PMode.elems rest2 with
             | some (PRes.es js rest3) =>
               some (PRes.v (Json.arr (j :: js)) rest3)
             | _ => none
           | _ => none) := by
  simp only [valueAt]
  rw [if_neg (by decide : ¬('[' : Char).isDigit = true),
    if_neg (by decide : ¬('[' : Char) = '-'),
    if_neg (by decide : ¬('[' : Char) = 'n'),
    if_neg (by decide : ¬('[' : Char) = 't'),
    if_neg (by decide : ¬('[' : Char) = 'f'),
    if_neg (by decide : ¬('[' : Char) = '"')]
  simp

theorem valueAt_lbrace (next : PMode → List Char → Option PRes)
    (cs : List Char) :
    valueAt next '{' cs =
      (match skipWs cs with
       | [] => none
       | c2 :: cs2 =>
         if c2 = '}' then some (PRes.v (Json.obj []) cs2)
         else
           match next PMode.member (c2 :: cs2) with
           | some (PRes.m kv rest2) =>
             match next PMode.members rest2 with
             | some (PRes.ms fs rest3) =>
               some (PRes.v (Json.obj (kv :: fs)) rest3)
             | _ => none
           | _ => none) := by
  simp only [valueAt]
  rw [if_neg (by decide : ¬('{' : Char).isDigit = true),
    if_neg (by decide : ¬('{' : Char) = '-'),
    if_neg (by decide : ¬('{' : Char) = 'n'),
    if_neg (by decide : ¬('{' : Char) = 't'),
    if_neg (by decide : ¬('{' : Char) = 'f'),
    if_neg (by decide : ¬('{' : Char) = '"'),
    if_neg (by decide : ¬('{' : Char) = '[')]
  simp

theorem elemsAt_comma (next : PMode → List Char → Option PRes)
    (cs : List Char) :
    elemsAt next ',' cs =
      (match next PMode.value cs with
       | some (PRes.v j rest2) =>
         match next PMode.elems rest2 with
         | some (PRes.es js rest3) => some (PRes.es (j :: js) rest3)
         | _ => none
       | _ => none) := by
  simp [elemsAt]

theorem elemsAt_rbrack (next : PMode → List Char → Option PRes)
    (cs : List Char) : elemsAt next ']' cs = some (PRes.es [] cs) := by
  simp only [elemsAt]
  rw [if_neg (by decide : ¬(']' : Char) = ',')]
  simp

theorem membersAt_comma (next : PMode → List Char → Option PRes)
    (cs : List Char) :
    membersAt next ',' cs =
      (match next PMode.member cs with
       | some (PRes.m kv rest2) =>
         match next PMode.members rest2 with
         | some (PRes.ms fs rest3) => some (PRes.ms (kv :: fs) rest3)
         | _ => none
       | _ => none) := by
  simp [membersAt]

theorem membersAt_rbrace (next : PMode → List Char → Option PRes)
    (cs : List Char) : membersAt next '}' cs = some (PRes.ms [] cs) := by
  simp only [membersAt]
  rw [if_neg (by decide : ¬('}' : Char) = ',')]
  simp

theorem memberAt_quote (next : PMode → List Char → Option PRes)
    (cs : List Char) :
    memberAt next '"' cs =
      (match strBody cs with
       | some (cs2, rest2) =>
         match skipWs rest2 with
         | [] => none
         | c3 :: cs3 =>
           if c3 = ':' then
             match next PMode.value cs3 with
             | some (PRes.v v rest4) => some (PRes.m (String.mk cs2, v) rest4)
             | _ => none
           else none
       | none => none) := by
  simp [memberAt]

theorem serMember_eq (d : Nat) (k : String) (v : Json) :
    serMember d (k, v)
      = '"' :: (escChars k.data ++ '"' :: ':' :: ' ' :: serJ (d + 2) v) := by
  simp [serMember, quoteStr, List.append_assoc]

theorem skipWs_to_serMember (n d : Nat) (k : String) (v : Json)
    (z : List Char) :
    skipWs (indentChars n ++ (serMember d (k, v) ++ z))
      = serMember d (k, v) ++ z := by
  rw [skipWs_indent, serMember_eq, List.cons_append,
    skipWs_cons_of_not_ws _ _ (by decide)]

/-- The central round-trip fact: with enough fuel, the parser reads back
exactly what the serializer wrote, in every mode, leaving the
continuation untouched. -/
theorem parse_serJ : ∀ fuel : Nat,
    (∀ (j : Json) (d : Nat) (rest : List Char),
      (serJ d j).length + 1 ≤ fuel → noDigit rest →
      parseStep fuel PMode.value (serJ d j ++ rest) = some (PRes.v j rest)) ∧
    (∀ (xs : List Json) (d : Nat) (rest : List Char),
      (serArrTail d xs).length + 1 ≤ fuel → noDigit rest →
      parseStep fuel PMode.elems (serArrTail d xs ++ rest) =
        some (PRes.es xs rest)) ∧
    (∀ (fs : List (String × Json)) (d : Nat) (rest : List Char),
      (serObjTail d fs).length + 1 ≤ fuel → noDigit rest →
      parseStep fuel PMode.members (serObjTail d fs ++ rest) =
        some (PRes.ms fs rest)) ∧
    (∀ (k : String) (v : Json) (d : Nat) (rest : List Char),
      (serMember d (k, v)).length + 1 ≤ fuel → noDigit rest →
      parseStep fuel PMode.member (serMember d (k, v) ++ rest) =
        some (PRes.m (k, v) rest)) := by
  intro fuel
  induction fuel with
  | zero =>
    exact ⟨fun j d rest h _ => absurd h (by omega),
      fun xs d rest h _ => absurd h (by omega),
      fun fs d rest h _ => absurd h (by omega),
      fun k v d rest h _ => absurd h (by omega)⟩
  | succ f ih =>
    obtain ⟨ihA, ihB, ihC, ihD⟩ := ih
    refine ⟨?_, ?_, ?_, ?_⟩
    · intro j d rest hlen hnd
      cases j with
      | null =>
        rw [show serJ d Json.null ++ rest = 'n' :: 'u' :: 'l' :: 'l' :: rest
          from by simp [serJ]]
        rw [parseStep_value_cons f _ _ (by decide), valueAt_null]
      | boolean b =>
        cases b
        · rw [show serJ d (Json.boolean false) ++ rest
            = 'f' :: 'a' :: 'l' :: 's' :: 'e' :: rest from by simp [serJ]]
          rw [parseStep_value_cons f _ _ (by decide), valueAt_false]
        · rw [show serJ d (Json.boolean true) ++ rest
            = 't' :: 'r' :: 'u' :: 'e' :: rest from by simp [serJ]]
          rw [parseStep_value_cons f _ _ (by decide), valueAt_true]
      | num n =>
        by_cases hneg : n < 0
        · rw [show serJ d (Json.num n) ++ rest
            = '-' :: (natChars n.natAbs ++ rest) from by
              simp [serJ, intChars, hneg]]
          rw [parseStep_value_cons f _ _ (by decide), valueAt_minus,
            parseDigits_natChars _ _ hnd]
          have habs : -((n.natAbs : Nat) : Int) = n := by omega
          show some (PRes.v (Json.num (-((n.natAbs : Nat) : Int))) rest)
            = some (PRes.v (Json.num n) rest)
          rw [habs]
        · obtain ⟨⟨c, t, hct⟩, hall⟩ := natChars_spec n.toNat
          have hc : c.isDigit = true :=
            hall c (by rw [hct]; exact List.mem_cons_self _ _)
          rw [show serJ d (Json.num n) ++ rest = c :: (t ++ rest) from by
            simp [serJ, intChars, hneg, hct]]
          rw [parseStep_value_cons f _ _ (isWs_eq_false_of_isDigit c hc),
            valueAt_digit _ _ _ hc]
          rw [show c :: (t ++ rest) = natChars n.toNat ++ rest from by
            rw [hct]; rfl]
          rw [parseDigits_natChars _ _ hnd]
          have htn : ((n.toNat : Nat) : Int) = n := by omega
          show some (PRes.v (Json.num ((n.toNat : Nat) : Int)) rest)
            = some (PRes.v (Json.num n) rest)
          rw [htn]
      | str s =>
        rw [show serJ d (Json.str s) ++ rest
          = '"' :: (escChars s.data ++ '"' :: rest) from by
            simp [serJ, quoteStr]]
        rw [parseStep_value_cons f _ _ (by decide), valueAt_quote,
          strBody_escape]
      | arr xs =>
        cases xs with
        | nil =>
          rw [show serJ d (Json.arr []) ++ rest = '[' :: ']' :: rest from by
            simp [serJ]]
          rw [parseStep_value_cons f _ _ (by decide), valueAt_lbrack,
            skipWs_cons_of_not_ws _ _ (by decide)]
          simp
        | cons x xs =>
          have hlen' := hlen
          simp [serJ, List.length_append, List.length_cons, indentChars,
            List.length_replicate] at hlen'
          have hsh : serJ d (Json.arr (x :: xs)) ++ rest
              = '[' :: ('\n' :: (indentChars (d + 2)
                ++ (serJ (d + 2) x ++ (serArrTail d xs ++ rest)))) := by
            simp [serJ, List.append_assoc]
          rw [hsh, parseStep_value_cons f _ _ (by decide), valueAt_lbrack,
            skipWs_cons_of_ws _ _ (by decide), skipWs_to_serJ]
          obtain ⟨c, t, hct, hws, hnb, _⟩ := serJ_head (d + 2) x
          rw [hct, List.cons_append]
          simp only [if_neg hnb]
          rw [← List.cons_append, ← hct]
          simp only [ihA x (d + 2) (serArrTail d xs ++ rest) (by omega)
              (noDigit_serArrTail d xs rest),
            ihB xs d rest (by omega) hnd]
      | obj fs =>
        cases fs with
        | nil =>
          rw [show serJ d (Json.obj []) ++ rest = '{' :: '}' :: rest from by
            simp [serJ]]
          rw [parseStep_value_cons f _ _ (by decide), valueAt_lbrace,
            skipWs_cons_of_not_ws _ _ (by decide)]
          simp
        | cons m ms =>
          obtain ⟨k, v⟩ := m
          have hlen2 := hlen
          simp [serJ, serMember, quoteStr, List.length_append,
            List.length_cons, indentChars, List.length_replicate] at hlen2
          have hm : (serMember d (k, v)).length
              = (escChars k.data).length + (serJ (d + 2) v).length + 4 := by
            simp [serMember, quoteStr]
            omega
          have hsh : serJ d (Json.obj ((k, v) :: ms)) ++ rest
              = '{' :: ('\n' :: (indentChars (d + 2)
                ++ (serMember d (k, v) ++ (serObjTail d ms ++ rest)))) := by
            simp [serJ, List.append_assoc]
          rw [hsh, parseStep_value_cons f _ _ (by decide), valueAt_lbrace,
            skipWs_cons_of_ws _ _ (by decide), skipWs_to_serMember]
          rw [serMember_eq, List.cons_append]
          simp only [if_neg (by decide : ¬('"' : Char) = '}')]
          rw [← List.cons_append, ← serMember_eq]
          simp only [ihD k v d (serObjTail d ms ++ rest) (by omega)
              (noDigit_serObjTail d ms rest),
            ihC ms d rest (by omega) hnd]
    · intro xs d rest hlen hnd
      cases xs with
      | nil =>
        have hsh : serArrTail d [] ++ rest
            = '\n' :: (indentChars d ++ (']' :: rest)) := by
          simp [serArrTail, List.append_assoc]
        rw [hsh, parseStep_skipWs, skipWs_cons_of_ws _ _ (by decide),
          skipWs_indent, skipWs_cons_of_not_ws _ _ (by decide)]
        rw [parseStep_elems_cons f _ _ (by decide), elemsAt_rbrack]
      | cons y ys =>
        have hlen2 := hlen
        simp [serArrTail, List.length_append, List.length_cons, indentChars,
          List.length_replicate] at hlen2
        have hsh : serArrTail d (y :: ys) ++ rest
            = ',' :: ('\n' :: (indentChars (d + 2)
              ++ (serJ (d + 2) y ++ (serArrTail d ys ++ rest)))) := by
          simp [serArrTail, List.append_assoc]
        rw [hsh, parseStep_elems_cons f _ _ (by decide), elemsAt_comma]
        rw [parseStep_skipWs f PMode.value, skipWs_cons_of_ws _ _ (by decide),
          skipWs_to_serJ]
        simp only [ihA y (d + 2) (serArrTail d ys ++ rest) (by omega)
            (noDigit_serArrTail d ys rest),
          ihB ys d rest (by omega) hnd]
    · intro fs d rest hlen hnd
      cases fs with
      | nil =>
        have hsh : serObjTail d [] ++ rest
            = '\n' :: (indentChars d ++ ('}' :: rest)) := by
          simp [serObjTail, List.append_assoc]
        rw [hsh, parseStep_skipWs, skipWs_cons_of_ws _ _ (by decide),
          skipWs_indent, skipWs_cons_of_not_ws _ _ (by decide)]
        rw [parseStep_members_cons f _ _ (by decide), membersAt_rbrace]
      | cons m ms =>
        obtain ⟨k, v⟩ := m
        have hlen2 := hlen
        simp [serObjTail, serMember, quoteStr, List.length_append,
          List.length_cons, indentChars, List.length_replicate] at hlen2
        have hm : (serMember d (k, v)).length
            = (escChars k.data).length + (serJ (d + 2) v).length + 4 := by
          simp [serMember, quoteStr]
          omega
        have hsh : serObjTail d ((k, v) :: ms) ++ rest
            = ',' :: ('\n' :: (indentChars (d + 2)
              ++ (serMember d (k, v) ++ (serObjTail d ms ++ rest)))) := by
          simp [serObjTail, List.append_assoc]
        rw [hsh, parseStep_members_cons f _ _ (by decide), membersAt_comma]
        rw [parseStep_skipWs f PMode.member, skipWs_cons_of_ws _ _ (by decide),
          skipWs_to_serMember]
        simp only [ihD k v d (serObjTail d ms ++ rest) (by omega)
            (noDigit_serObjTail d ms rest),
          ihC ms d rest (by omega) hnd]
    · intro k v d rest hlen hnd
      have hlen2 := hlen
      simp [serMember, quoteStr, List.length_append, List.length_cons]
        at hlen2
      have hsh : serMember d (k, v) ++ rest
          = '"' :: (escChars k.data ++ '"' :: (':' :: (' '
            :: (serJ (d + 2) v ++ rest)))) := by
        rw [serMember_eq]
        simp [List.append_assoc]
      have hs1 : parseStep f PMode.value (' ' :: (serJ (d + 2) v ++ rest))
          = some (PRes.v v rest) := by
        rw [parseStep_skipWs, skipWs_cons_of_ws _ _ (by decide)]
        obtain ⟨c, t, hct, hws, _, _⟩ := serJ_head (d + 2) v
        rw [hct, List.cons_append, skipWs_cons_of_not_ws _ _ hws,
          ← List.cons_append, ← hct]
        exact ihA v (d + 2) rest (by omega) hnd
      rw [hsh, parseStep_member_cons f _ _ (by decide), memberAt_quote,
        strBody_escape]
      simp only [skipWs_cons_of_not_ws _ _ (by decide : isWs ':' = false),
        hs1]
      simp

/-- Parsing back a serialized document recovers it exactly. -/
theorem parseJson_serializeJson (j : Json) :
    parseJson (serializeJson j) = some j := by
  unfold parseJson serializeJson
  have hdata : (String.mk (serJ 0 j)).data = serJ 0 j := rfl
  rw [hdata]
  have h := (parse_serJ ((serJ 0 j).length + 1)).1 j 0 [] (by omega) trivial
  rw [show serJ 0 j ++ ([] : List Char) = serJ 0 j from by simp] at h
  rw [h]
  simp [skipWs]

/-- Claim C8: `readDatabase` returns the last persisted document — parsing
the bytes `writeDatabase` wrote yields the written document — and when no
document exists (`none`) or the content does not parse, it returns the
document with all four collections (`products`, `sales`, `customers`,
`stockTransactions`) empty instead of raising (the `catch` branch). -/
theorem C8_load_fallback :
    readDatabase none = initialDb ∧
    (∀ s : String, parseJson s = none → readDatabase (some s) = initialDb) ∧
    (∀ j : Json, readDatabase (some (writeDatabase j)) = j) := by
  refine ⟨rfl, ?_, ?_⟩
  · intro s h
    simp [readDatabase, h]
  · intro j
    simp [readDatabase, writeDatabase, parseJson_serializeJson]

theorem C8_witness :
    parseJson "notjson" = none ∧ readDatabase (some "notjson") = initialDb :=
  ⟨rfl, C8_load_fallback.2.1 "notjson" rfl⟩

/-- Claim C9: for every persisted document produced by `writeDatabase`,
`save(load())` is a no-op on the stored bytes: serializing what
`readDatabase` reads back from a written document reproduces that document
byte for byte (serialization is stable). -/
theorem C9_save_load_noop (j : Json) :
    writeDatabase (readDatabase (some (writeDatabase j))) = writeDatabase j := by
  simp [readDatabase, writeDatabase, parseJson_serializeJson]

end Backend